import Mathlib

/- Verification of the physical plan builder
   (src/query/sql/src/executor/physical_plan_builder.rs).

   The builder is embedded shallowly: the relational tree, the metadata
   registry, the physical tree and the builder's recursion are translated
   into Lean definitions.  Rust `Result` becomes `Except BuildErr`; a Rust
   panic (`unwrap`/`expect`) is modelled as the distinguished error
   `BuildErr.panic`, kept apart from `ErrorCode::Internal` returns, which
   become `BuildErr.internal`.  Machine `f64` cardinalities are carried
   opaquely as `Rat` (no arithmetic is performed on them).  The builder's
   `async` recursion is modelled with an explicit fuel argument; the
   mutable `next_plan_id` counter is threaded as an explicit `Nat`.
   Collaborators that live outside the excerpt (constant folder, boolean
   cast, hash-method choice, catalog and storage read-plan resolution,
   cardinality derivation) are abstract fields of a `Ctx` record. -/

/-- Scalar data types (`common_expression::types::DataType`), reduced to the
variants the builder excerpt manipulates. -/
inductive DataType where
  | Boolean
  | String
  | Int32
  | Float64
  | Variant
  | Nullable (inner : DataType)
  deriving DecidableEq, Repr

/-- A field of a data schema: a name and a type (`DataField` / `TableField`). -/
structure DataField where
  name : String
  data_type : DataType
  deriving DecidableEq, Repr

/-- A schema is an ordered list of fields (`DataSchema`). -/
abbrev DataSchema := List DataField

/-- Storage-level schemas (`TableSchema`) are modelled with the same field
representation as in-memory schemas. -/
abbrev TableSchema := List DataField

/-- Position of the first field with the given name (`DataSchema::index_of`,
which in Rust returns `Result`; `none` stands for the `Err` case). -/
def DataSchema.index_of (s : DataSchema) (name : String) : Option Nat :=
  match s with
  | [] => none
  | f :: rest =>
    if f.name == name then some 0
    else (DataSchema.index_of rest name).map (fun i => i + 1)

/-- Errors of the build pass.  `internal` models `ErrorCode::Internal`
returns, `external` models propagated catalog/storage errors, `panic`
models a Rust panic (`unwrap`/`expect`), and `recursionLimit` is the
artefact of the fuel-indexed embedding of the recursion. -/
inductive BuildErr where
  | internal (msg : String)
  | panic (msg : String)
  | external (msg : String)
  | recursionLimit
  deriving DecidableEq, Repr

/-- Lookup of a field by name (`DataSchema::field_with_name`). -/
def DataSchema.field_with_name (s : DataSchema) (name : String) :
    Except BuildErr DataField :=
  match s with
  | [] => .error (.internal ("Unable to get field named " ++ name))
  | f :: rest =>
    if f.name == name then .ok f else DataSchema.field_with_name rest name

/-- Column registry entries (`ColumnEntry`): a base-table column with an
optional path to a nested sub-field, or a derived column. -/
inductive ColumnEntry where
  | baseTableColumn (table_index : Nat) (column_name : String)
      (data_type : DataType) (path_indices : Option (List Nat)) (index : Nat)
  | derivedColumn (column_alias : String) (data_type : DataType) (index : Nat)
  deriving DecidableEq, Repr

/-- The entry's own logical column index (`ColumnEntry::index`). -/
def ColumnEntry.index : ColumnEntry → Nat
  | .baseTableColumn _ _ _ _ i => i
  | .derivedColumn _ _ i => i

/-- Resolved name of a column entry: the column name of a base-table column,
the alias of a derived column (the match repeated throughout the builder). -/
def ColumnEntry.name : ColumnEntry → String
  | .baseTableColumn _ n _ _ _ => n
  | .derivedColumn a _ _ => a

/-- Declared type of a column entry (with `DataType::from` on table types
collapsed, both variants carry a `DataType` here). -/
def ColumnEntry.data_type : ColumnEntry → DataType
  | .baseTableColumn _ _ t _ _ => t
  | .derivedColumn _ t _ => t

/-- Storage projection descriptor (`common_catalog::plan::Projection`):
either plain field positions or, for nested access, a map from logical
column index to a path of positions. -/
inductive Projection where
  | columns (idxs : List Nat)
  | innerColumns (pairs : List (Nat × List Nat))
  deriving DecidableEq, Repr

/-- Logical scalar expressions (`crate::plans::ScalarExpr`), reduced to the
variants the builder excerpt matches on. -/
inductive ScalarExpr where
  | boundColumnRef (index : Nat) (column_name : String) (data_type : DataType)
  | constantExpr (value : Nat) (data_type : DataType)
  | andExpr (left : ScalarExpr) (right : ScalarExpr) (return_type : DataType)
  | aggregateFunction (func_name : String) (params : List Nat)
      (args : List ScalarExpr) (return_type : DataType)
  | unnestExpr (argument : ScalarExpr) (return_type : DataType)

/-- Declared type of a scalar (`ScalarExpr::data_type`). -/
def ScalarExpr.data_type : ScalarExpr → DataType
  | .boundColumnRef _ _ t => t
  | .constantExpr _ t => t
  | .andExpr _ _ t => t
  | .aggregateFunction _ _ _ t => t
  | .unnestExpr _ t => t

/-- An output item of EvalScalar / Aggregate (`crate::plans::ScalarItem`):
a scalar plus the logical index of the column it defines. -/
structure ScalarItem where
  scalar : ScalarExpr
  index : Nat

/-- A sort item (`crate::plans::SortItem`). -/
structure SortItem where
  index : Nat
  asc : Bool
  nulls_first : Bool

/-- Prewhere split carried by a Scan (`crate::plans::Prewhere`). -/
structure Prewhere where
  output_columns : List Nat
  prewhere_columns : List Nat
  predicates : List ScalarExpr

/-- The Scan relational operator (`crate::plans::Scan`), restricted to the
fields the builder reads.  The required column set (`ColumnSet`, a hash
set in Rust) is modelled as its iteration order, a list. -/
structure Scan where
  table_index : Nat
  columns : List Nat
  push_down_predicates : Option (List ScalarExpr)
  prewhere : Option Prewhere
  order_by : Option (List SortItem)
  limit : Option Nat

/-- The Join relational operator (`crate::plans::Join`), restricted to the
fields the builder reads; the join type is carried as an opaque tag. -/
structure Join where
  join_type : String
  left_conditions : List ScalarExpr
  right_conditions : List ScalarExpr
  non_equi_conditions : List ScalarExpr
  marker_index : Option Nat
  from_correlated_subquery : Bool
  contain_runtime_filter : Bool

/-- Aggregation modes (`crate::plans::AggregateMode`). -/
inductive AggregateMode where
  | Partial
  | Final
  | Initial
  deriving DecidableEq, Repr

/-- The Aggregate relational operator (`crate::plans::Aggregate`),
restricted to the fields the builder reads. -/
structure Aggregate where
  mode : AggregateMode
  group_items : List ScalarItem
  aggregate_functions : List ScalarItem
  limit : Option Nat

/-- Logical redistribution kinds (`crate::plans::Exchange`). -/
inductive Exchange where
  | Random
  | Hash (scalars : List ScalarExpr)
  | Broadcast
  | Merge

/-- Relational operators (`crate::plans::RelOperator`); `other` stands for
every operator kind the builder rejects as unsupported, carrying its debug
form. -/
inductive RelOperator where
  | scan (s : Scan)
  | dummyTableScan
  | join (j : Join)
  | evalScalar (items : List ScalarItem)
  | filter (predicates : List ScalarExpr)
  | aggregate (agg : Aggregate)
  | sort (items : List SortItem) (limit : Option Nat)
  | limit (limit : Option Nat) (offset : Nat)
  | exchange (e : Exchange)
  | unionAll (pairs : List (Nat × Nat))
  | runtimeFilterSource (left_runtime_filters : List (String × ScalarExpr))
      (right_runtime_filters : List (String × ScalarExpr))
  | other (debug_form : String)

/-- The relational tree (`SExpr`): an operator plus positionally accessed
children. -/
inductive SExpr where
  | mk (plan : RelOperator) (children : List SExpr)

/-- Physical expressions (`common_expression::Expr` and its serialized twin
`RemoteExpr`, which is a structural copy and therefore identified with it
here), parametrized by the column-identifier type (logical index, schema
position, or column name). -/
inductive Expr (α : Type) where
  | columnRef (id : α) (data_type : DataType) (display_name : String)
  | constant (value : Nat) (data_type : DataType)
  | functionCall (name : String) (lhs : Expr α) (rhs : Expr α)
      (return_type : DataType)
  | cast (expr : Expr α) (dest_type : DataType)
  deriving DecidableEq, Repr

/-- Result type of a physical expression (`Expr::data_type`). -/
def Expr.data_type : Expr α → DataType
  | .columnRef _ t _ => t
  | .constant _ t => t
  | .functionCall _ _ _ t => t
  | .cast _ t => t

/-- Modelled from the spec: `ScalarExpr::as_expr_with_col_index` (in
`crate::plans`, outside the excerpt) converts a logical scalar to a
physical expression whose column references carry the logical column
index; scalars with no direct expression form (aggregates, unnest) fail. -/
def ScalarExpr.as_expr_with_col_index : ScalarExpr → Except BuildErr (Expr Nat)
  | .boundColumnRef index column_name t => .ok (.columnRef index t column_name)
  | .constantExpr v t => .ok (.constant v t)
  | .andExpr l r t =>
    match l.as_expr_with_col_index with
    | .error e => .error e
    | .ok le =>
      match r.as_expr_with_col_index with
      | .error e => .error e
      | .ok re => .ok (.functionCall ("and") le re t)
  | .aggregateFunction _ _ _ _ =>
    .error (.internal ("Cannot convert aggregate function to expr"))
  | .unnestExpr _ _ =>
    .error (.internal ("Cannot convert unnest to expr"))

/-- Modelled from the spec: `ScalarExpr::as_expr_with_col_name` (outside the
excerpt) converts a logical scalar to a physical expression whose column
references carry the resolved column name. -/
def ScalarExpr.as_expr_with_col_name : ScalarExpr → Except BuildErr (Expr String)
  | .boundColumnRef _ column_name t => .ok (.columnRef column_name t column_name)
  | .constantExpr v t => .ok (.constant v t)
  | .andExpr l r t =>
    match l.as_expr_with_col_name with
    | .error e => .error e
    | .ok le =>
      match r.as_expr_with_col_name with
      | .error e => .error e
      | .ok re => .ok (.functionCall ("and") le re t)
  | .aggregateFunction _ _ _ _ =>
    .error (.internal ("Cannot convert aggregate function to expr"))
  | .unnestExpr _ _ =>
    .error (.internal ("Cannot convert unnest to expr"))

/-- Rebinds a physical expression's column references from logical index to
position in the target schema (`Expr::project_column_ref` applied to the
closure `|index| schema.index_of(&index.to_string()).unwrap()`); an absent
name is a Rust panic, modelled as `BuildErr.panic`. -/
def Expr.project_column_ref : Expr Nat → DataSchema → Except BuildErr (Expr Nat)
  | .columnRef id t dn, schema =>
    match DataSchema.index_of schema (toString id) with
    | some i => .ok (.columnRef i t dn)
    | none => .error (.panic ("called Result::unwrap on an Err value"))
  | .constant v t, _ => .ok (.constant v t)
  | .functionCall name l r t, schema =>
    match l.project_column_ref schema with
    | .error e => .error e
    | .ok l2 =>
      match r.project_column_ref schema with
      | .error e => .error e
      | .ok r2 => .ok (.functionCall name l2 r2 t)
  | .cast e t, schema =>
    match e.project_column_ref schema with
    | .error e2 => .error e2
    | .ok e2 => .ok (.cast e2 t)

/-- Cardinality estimate attached to physical nodes
(`PlanStatsInfo { estimated_rows: f64 }`); the `f64` is carried opaquely. -/
structure PlanStatsInfo where
  estimated_rows : Rat
  deriving DecidableEq, Repr

/-- Aggregate function signature (`AggregateFunctionSignature`). -/
structure AggregateFunctionSignature where
  name : String
  args : List DataType
  params : List Nat
  return_type : DataType
  deriving DecidableEq, Repr

/-- Aggregate function descriptor (`AggregateFunctionDesc`): `args` are
positions in the bound schema, `arg_indices` the logical indices. -/
structure AggregateFunctionDesc where
  sig : AggregateFunctionSignature
  output_column : Nat
  args : List Nat
  arg_indices : List Nat
  deriving DecidableEq, Repr

/-- Sort key of the physical Sort node (`SortDesc`). -/
structure SortDesc where
  asc : Bool
  nulls_first : Bool
  order_by : Nat
  deriving DecidableEq, Repr

/-- Fragment kinds of the execution layer (`FragmentKind`). -/
inductive FragmentKind where
  | Init
  | Normal
  | Expansive
  | Merge
  deriving DecidableEq, Repr

/-- The storage read plan handed back by
`Table::read_plan_with_catalog` (external); only its schema is relevant
to the builder, so the plan is modelled as that schema. -/
structure DataSourcePlan where
  schema : DataSchema
  deriving DecidableEq, Repr

/-- Prewhere push-down bundle (`common_catalog::plan::PrewhereInfo`). -/
structure PrewhereInfo where
  output_columns : Projection
  prewhere_columns : Projection
  remain_columns : Projection
  filter : Expr String
  deriving DecidableEq, Repr

/-- Full push-down bundle (`common_catalog::plan::PushDownInfo`). -/
structure PushDownInfo where
  projection : Option Projection
  filter : Option (Expr String)
  prewhere : Option PrewhereInfo
  limit : Option Nat
  order_by : List (Expr String × Bool × Bool)
  deriving DecidableEq, Repr

/-- Physical plan nodes (`PhysicalPlan`).  Field lists follow the struct
literals in the builder: `Exchange` owns no plan id and no stat info,
`RuntimeFilterSource` owns a plan id but no stat info. -/
inductive PhysicalPlan where
  | tableScan (plan_id : Nat) (name_mapping : List (String × Nat))
      (source : DataSourcePlan) (table_index : Nat)
      (stat_info : Option PlanStatsInfo)
  | hashJoin (plan_id : Nat) (build : PhysicalPlan) (probe : PhysicalPlan)
      (join_type : String) (build_keys : List (Expr Nat))
      (probe_keys : List (Expr Nat)) (non_equi_conditions : List (Expr Nat))
      (marker_index : Option Nat) (from_correlated_subquery : Bool)
      (contain_runtime_filter : Bool) (stat_info : Option PlanStatsInfo)
  | evalScalar (plan_id : Nat) (input : PhysicalPlan)
      (exprs : List (Expr Nat × Nat)) (stat_info : Option PlanStatsInfo)
  | unnest (plan_id : Nat) (input : PhysicalPlan) (offsets : List Nat)
      (stat_info : Option PlanStatsInfo)
  | filter (plan_id : Nat) (input : PhysicalPlan)
      (predicates : List (Expr Nat)) (stat_info : Option PlanStatsInfo)
  | aggregatePartial (plan_id : Nat) (input : PhysicalPlan)
      (agg_funcs : List AggregateFunctionDesc) (group_by : List Nat)
      (stat_info : Option PlanStatsInfo)
  | aggregateFinal (plan_id : Nat) (input : PhysicalPlan)
      (group_by : List Nat) (agg_funcs : List AggregateFunctionDesc)
      (before_group_by_schema : DataSchema)
      (stat_info : Option PlanStatsInfo) (limit : Option Nat)
  | sort (plan_id : Nat) (input : PhysicalPlan) (order_by : List SortDesc)
      (limit : Option Nat) (stat_info : Option PlanStatsInfo)
  | limit (plan_id : Nat) (input : PhysicalPlan) (limit : Option Nat)
      (offset : Nat) (stat_info : Option PlanStatsInfo)
  | exchange (input : PhysicalPlan) (kind : FragmentKind)
      (keys : List (Expr Nat))
  | unionAll (plan_id : Nat) (left : PhysicalPlan) (right : PhysicalPlan)
      (pairs : List (String × String)) (schema : DataSchema)
      (stat_info : Option PlanStatsInfo)
  | runtimeFilterSource (plan_id : Nat) (left_side : PhysicalPlan)
      (right_side : PhysicalPlan)
      (left_runtime_filters : List (String × Expr Nat))
      (right_runtime_filters : List (String × Expr Nat))
  deriving DecidableEq, Repr

/-- Human-readable node name (`PhysicalPlan::name`), used in the
invariant-violation error messages. -/
def PhysicalPlan.name : PhysicalPlan → String
  | .tableScan .. => "TableScan"
  | .hashJoin .. => "HashJoin"
  | .evalScalar .. => "EvalScalar"
  | .unnest .. => "Unnest"
  | .filter .. => "Filter"
  | .aggregatePartial .. => "AggregatePartial"
  | .aggregateFinal .. => "AggregateFinal"
  | .sort .. => "Sort"
  | .limit .. => "Limit"
  | .exchange .. => "Exchange"
  | .unionAll .. => "UnionAll"
  | .runtimeFilterSource .. => "RuntimeFilterSource"

/-- Type of the field with the given name, defaulting when absent (helper
for the modelled final-aggregate schema). -/
def schemaTypeOf (s : DataSchema) (name : String) : DataType :=
  match s.find? (fun f => f.name == name) with
  | some f => f.data_type
  | none => DataType.String

/-- Modelled from the spec: `PhysicalPlan::output_schema` (in
`executor/physical_plan.rs`, outside the excerpt), following the
per-operator output schema rules of the spec: Scan yields the
storage-provided schema after push-down; Join yields probe fields followed
by build fields; EvalScalar appends one field per expression; Filter,
Sort, Limit, Exchange and the runtime-filter carrier pass their input
through; UnionAll yields its stored paired schema; a partial aggregate
yields one state column per aggregate function plus the group-by key
column, whose position is always the last field of the partial output;
a final aggregate yields group-by fields then one result field per
aggregate function. -/
def PhysicalPlan.output_schema : PhysicalPlan → DataSchema
  | .tableScan _ _ source _ _ => source.schema
  | .hashJoin _ b p _ _ _ _ _ _ _ _ => p.output_schema ++ b.output_schema
  | .evalScalar _ input exprs _ =>
    input.output_schema ++
      exprs.map (fun e => { name := toString e.2, data_type := e.1.data_type })
  | .unnest _ input _ _ => input.output_schema
  | .filter _ input _ _ => input.output_schema
  | .aggregatePartial _ _ agg_funcs group_by _ =>
    agg_funcs.map (fun f =>
        { name := toString f.output_column, data_type := DataType.String }) ++
      (if group_by.isEmpty then []
       else [{ name := "_group_by_key", data_type := DataType.String }])
  | .aggregateFinal _ _ group_by agg_funcs before _ _ =>
    group_by.map (fun i =>
        { name := toString i, data_type := schemaTypeOf before (toString i) }) ++
      agg_funcs.map (fun f =>
        { name := toString f.output_column, data_type := f.sig.return_type })
  | .sort _ input _ _ _ => input.output_schema
  | .limit _ input _ _ _ => input.output_schema
  | .exchange input _ _ => input.output_schema
  | .unionAll _ _ _ _ schema _ => schema
  | .runtimeFilterSource _ left _ _ _ => left.output_schema

/-- A bound table (`TableEntry::table()` result): its storage schema and
its (external, suspending) read-plan resolution. -/
structure Table where
  schema : TableSchema
  read_plan : Option PushDownInfo → Except BuildErr DataSourcePlan

/-- A table entry of the metadata registry. -/
structure TableEntry where
  catalog : String
  table : Table

/-- The metadata registry (read-only for one build pass): resolution of
logical column indices and table indices. -/
structure Metadata where
  column : Nat → ColumnEntry
  table : Nat → TableEntry

/-- The builder's immutable environment: the metadata snapshot plus the
collaborators the excerpt calls but does not define.  `foldIdx`/`foldName`
model `ConstantFolder::fold` (with its function context; the folded
constant component, discarded by every call site, is dropped);
`castIdx`/`castName` model `cast_expr_to_non_null_boolean`;
`chooseHashMethodDataType` models
`DataBlock::choose_hash_method_with_types(..)?.data_type()`;
`deriveCardinality` models the relational property derivation;
`systemOneTable` models the default-catalog lookup of `system.one`. -/
structure Ctx where
  metadata : Metadata
  deriveCardinality : SExpr → Except BuildErr Rat
  foldIdx : Expr Nat → Expr Nat
  foldName : Expr String → Expr String
  castIdx : Expr Nat → Except BuildErr (Expr Nat)
  castName : Expr String → Except BuildErr (Expr String)
  chooseHashMethodDataType : List DataType → Except BuildErr DataType
  systemOneTable : Except BuildErr Table

/-- The dummy column index constant (`DUMMY_COLUMN_INDEX = usize::MAX`). -/
def DUMMY_COLUMN_INDEX : Nat := 2 ^ 64 - 1

/-- The dummy table index constant (`DUMMY_TABLE_INDEX = usize::MAX`). -/
def DUMMY_TABLE_INDEX : Nat := 2 ^ 64 - 1

/-- Fallible map over a list, stopping at the first error
(`collect::<Result<Vec<_>>>()`). -/
def mapE (f : α → Except BuildErr β) : List α → Except BuildErr (List β)
  | [] => .ok []
  | a :: l =>
    match f a with
    | .error e => .error e
    | .ok b =>
      match mapE f l with
      | .error e => .error e
      | .ok bs => .ok (b :: bs)

/-- Ascending sort of naturals (itertools `sorted()` on positions). -/
def sortNat (l : List Nat) : List Nat :=
  List.insertionSort (fun a b => a ≤ b) l

/-- Ordered insertion into a key-sorted association list, replacing an
existing binding of the same key (one `BTreeMap` insertion). -/
def btreeInsertNat (x : Nat × List Nat) :
    List (Nat × List Nat) → List (Nat × List Nat)
  | [] => [x]
  | y :: ys =>
    if x.1 < y.1 then x :: y :: ys
    else if x.1 = y.1 then x :: ys
    else y :: btreeInsertNat x ys

/-- Collecting pairs into a `BTreeMap` keyed by logical column index
(`collect::<BTreeMap<_, _>>()`; later bindings of a key overwrite earlier
ones, and the preceding `sorted()` call does not affect the resulting map
when keys are distinct, so it is not modelled separately). -/
def collectBTree (l : List (Nat × List Nat)) : List (Nat × List Nat) :=
  l.foldl (fun acc x => btreeInsertNat x acc) []

/-- Insert-or-replace into a string-keyed association list (a `BTreeMap`
insertion; the key order of the surrounding map is not observed by any
claim, so insertion order is kept instead). -/
def assocReplace (acc : List (String × β)) (k : String) (v : β) :
    List (String × β) :=
  match acc with
  | [] => [(k, v)]
  | (k2, v2) :: rest =>
    if k2 == k then (k, v) :: rest else (k2, v2) :: assocReplace rest k v

/-- Unwrap of a schema position lookup (`schema.index_of(name).unwrap()`):
an absent name panics. -/
def unwrapIndex (o : Option Nat) : Except BuildErr Nat :=
  match o with
  | some i => .ok i
  | none => .error (.panic ("called Result::unwrap on an Err value"))

/-- Position lookup used by the flat projection branch. -/
def flatLookup (m : Metadata) (schema : TableSchema) (index : Nat) :
    Except BuildErr Nat :=
  unwrapIndex (DataSchema.index_of schema ((m.column index).name))

/-- Pair `(column.index(), path)` used by the nested projection branch. -/
def nestedLookup (m : Metadata) (schema : TableSchema) (index : Nat) :
    Except BuildErr (Nat × List Nat) :=
  let column := m.column index
  match column with
  | .baseTableColumn _ _ _ (some path_indices) _ => .ok (column.index, path_indices)
  | .baseTableColumn _ column_name _ none _ =>
    match DataSchema.index_of schema column_name with
    | some idx => .ok (column.index, [idx])
    | none => .error (.panic ("called Result::unwrap on an Err value"))
  | .derivedColumn column_alias _ _ =>
    match DataSchema.index_of schema column_alias with
    | some idx => .ok (column.index, [idx])
    | none => .error (.panic ("called Result::unwrap on an Err value"))

/-- The projection builder (`PhysicalPlanBuilder::build_projection`):
flat positions, sorted ascending, when no requested column is nested;
otherwise a `BTreeMap` from logical column index to position path. -/
def build_projection (m : Metadata) (schema : TableSchema)
    (columns : List Nat) (has_inner_column : Bool) :
    Except BuildErr Projection :=
  if !has_inner_column then
    match mapE (flatLookup m schema) columns with
    | .error e => .error e
    | .ok idxs => .ok (.columns (sortNat idxs))
  else
    match mapE (nestedLookup m schema) columns with
    | .error e => .error e
    | .ok pairs => .ok (.innerColumns (collectBTree pairs))

/-- Whether any requested column is a nested (path-indexed) base-table
column — the `has_inner_column` computation of the Scan handler. -/
def hasInnerColumn (m : Metadata) (columns : List Nat) : Bool :=
  columns.any (fun index =>
    match m.column index with
    | .baseTableColumn _ _ _ (some _) _ => true
    | _ => false)

/-- The Scan handler's name mapping: every required column's resolved name
mapped to its logical index, restricted to the prewhere output columns
when a prewhere split is present. -/
def scanNameMapping (m : Metadata) (sc : Scan) : List (String × Nat) :=
  sc.columns.foldl (fun acc index =>
    let nm := (m.column index).name
    match sc.prewhere with
    | some pw =>
      if pw.output_columns.contains index then assocReplace acc nm index else acc
    | none => assocReplace acc nm index) []

/-- Modelled from the spec: the `check_function(None, "and", ..)` combination
of push-down predicates (type checking lives outside the excerpt). -/
def andCombine (lhs rhs : Expr String) : Expr String :=
  .functionCall ("and") lhs rhs DataType.Boolean

/-- The push-down filter: predicates (when present and non-empty) converted
by name, combined with AND, cast to non-null boolean, folded. -/
def pushDownFilter (ctx : Ctx) (sc : Scan) :
    Except BuildErr (Option (Expr String)) :=
  match sc.push_down_predicates with
  | none => .ok none
  | some preds =>
    if preds.isEmpty then .ok none
    else
      match mapE ScalarExpr.as_expr_with_col_name preds with
      | .error e => .error e
      | .ok es =>
        match es with
        | [] => .ok none
        | e0 :: rest =>
          match ctx.castName (rest.foldl andCombine e0) with
          | .error e => .error e
          | .ok cexpr => .ok (some (ctx.foldName cexpr))

/-- The remaining-columns set of a prewhere split:
`scan.columns.difference(&prewhere.prewhere_columns)`. -/
def remainColumnsOf (sc : Scan) (pw : Prewhere) : List Nat :=
  sc.columns.filter (fun i => !(pw.prewhere_columns.contains i))

/-- The prewhere bundle: remaining columns as the set difference, three
projections over the same base schema, and all prewhere predicates
reduced with AND, cast to non-null boolean and folded into one filter
(an empty predicate list is an `expect` panic). -/
def prewhereInfoOf (ctx : Ctx) (sc : Scan) (table_schema : TableSchema)
    (has_inner_column : Bool) : Except BuildErr (Option PrewhereInfo) :=
  match sc.prewhere with
  | none => .ok none
  | some pw =>
    let m := ctx.metadata
    let remain := remainColumnsOf sc pw
    match build_projection m table_schema pw.output_columns has_inner_column with
    | .error e => .error e
    | .ok output_columns =>
      match build_projection m table_schema pw.prewhere_columns has_inner_column with
      | .error e => .error e
      | .ok prewhere_columns =>
        match build_projection m table_schema remain has_inner_column with
        | .error e => .error e
        | .ok remain_columns =>
          match pw.predicates with
          | [] =>
            .error (.panic ("there should be at least one predicate in prewhere"))
          | p0 :: rest =>
            let predicate := rest.foldl
              (fun l r => ScalarExpr.andExpr l r DataType.Boolean) p0
            match predicate.as_expr_with_col_name with
            | .error e => .error e
            | .ok pe =>
              match ctx.castName pe with
              | .error e => .error e
              | .ok ce =>
                .ok (some { output_columns := output_columns,
                            prewhere_columns := prewhere_columns,
                            remain_columns := remain_columns,
                            filter := ctx.foldName ce })

/-- The scan's order-by hints: each sort item resolved through the metadata
registry to a by-name column reference plus its flags. -/
def scanOrderBy (ctx : Ctx) (sc : Scan) :
    Except BuildErr (Option (List (Expr String × Bool × Bool))) :=
  match sc.order_by with
  | none => .ok none
  | some items =>
    match mapE (fun (item : SortItem) =>
        let column := ctx.metadata.column item.index
        let nm := column.name
        (.ok ((Expr.columnRef nm column.data_type nm : Expr String),
          item.asc, item.nulls_first) : Except BuildErr _)) items with
    | .error e => .error e
    | .ok l => .ok (some l)

/-- The push-down assembler (`PhysicalPlanBuilder::push_downs`). -/
def push_downs (ctx : Ctx) (sc : Scan) (table_schema : TableSchema)
    (has_inner_column : Bool) : Except BuildErr PushDownInfo :=
  match build_projection ctx.metadata table_schema sc.columns has_inner_column with
  | .error e => .error e
  | .ok projection =>
    match pushDownFilter ctx sc with
    | .error e => .error e
    | .ok filterOpt =>
      match prewhereInfoOf ctx sc table_schema has_inner_column with
      | .error e => .error e
      | .ok prewhereOpt =>
        match scanOrderBy ctx sc with
        | .error e => .error e
        | .ok orderByOpt =>
          .ok { projection := some projection,
                filter := filterOpt,
                prewhere := prewhereOpt,
                limit := sc.limit,
                order_by := orderByOpt.getD [] }

/-- Rebinding of a logical scalar against a physical schema:
`as_expr_with_col_index` followed by `project_column_ref`. -/
def rebindOnly (schema : DataSchema) (scalar : ScalarExpr) :
    Except BuildErr (Expr Nat) :=
  match scalar.as_expr_with_col_index with
  | .error e => .error e
  | .ok e => e.project_column_ref schema

/-- Rebinding followed by constant folding (the Join/Exchange/EvalScalar
per-expression pipeline). -/
def rebindFold (ctx : Ctx) (schema : DataSchema) (scalar : ScalarExpr) :
    Except BuildErr (Expr Nat) :=
  match rebindOnly schema scalar with
  | .error e => .error e
  | .ok e => .ok (ctx.foldIdx e)

/-- Rebinding, cast to non-null boolean, then folding (the Filter
per-predicate pipeline). -/
def rebindCastFold (ctx : Ctx) (schema : DataSchema) (scalar : ScalarExpr) :
    Except BuildErr (Expr Nat) :=
  match rebindOnly schema scalar with
  | .error e => .error e
  | .ok e =>
    match ctx.castIdx e with
    | .error e2 => .error e2
    | .ok e2 => .ok (ctx.foldIdx e2)

/-- Whether an EvalScalar item is tagged as unnest. -/
def isUnnestScalar : ScalarExpr → Bool
  | .unnestExpr _ _ => true
  | _ => false

/-- Offsets of unnest-tagged items: position in the item list plus the
input field count, collected in item order. -/
def unnestOffsetsAux (offset : Nat) (i : Nat) : List ScalarItem → List Nat
  | [] => []
  | item :: rest =>
    if isUnnestScalar item.scalar then
      (i + offset) :: unnestOffsetsAux offset (i + 1) rest
    else unnestOffsetsAux offset (i + 1) rest

/-- The unnest offsets recorded by the EvalScalar handler. -/
def unnestOffsets (offset : Nat) (items : List ScalarItem) : List Nat :=
  unnestOffsetsAux offset 0 items

/-- One EvalScalar item: an unnest-tagged scalar contributes its inner
argument, evaluated as a normal scalar; the result is paired with the
item's output column index. -/
def evalScalarItem (ctx : Ctx) (input_schema : DataSchema)
    (item : ScalarItem) : Except BuildErr (Expr Nat × Nat) :=
  let scalar := match item.scalar with
    | .unnestExpr argument _ => argument
    | sc => sc
  match rebindFold ctx input_schema scalar with
  | .error e => .error e
  | .ok e => .ok (e, item.index)

/-- Resolution of one aggregate argument to its position in the bound
schema (`input_schema.index_of(&col.column.index.to_string())?`, a
returned error, not a panic). -/
def aggArgPosition (input_schema : DataSchema) (arg : ScalarExpr) :
    Except BuildErr Nat :=
  match arg with
  | .boundColumnRef index _ _ =>
    match DataSchema.index_of input_schema (toString index) with
    | some ci => .ok ci
    | none => .error (.internal ("Unable to get field named " ++ toString index))
  | _ => .error (.internal ("Aggregate function argument must be a BoundColumnRef"))

/-- The logical index of one aggregate argument. -/
def aggArgIndex (arg : ScalarExpr) : Except BuildErr Nat :=
  match arg with
  | .boundColumnRef index _ _ => .ok index
  | _ => .error (.internal ("Aggregate function argument must be a BoundColumnRef"))

/-- One aggregate function descriptor, as assembled by both aggregate
stages: signature from declared argument types, argument positions
resolved in the given schema, argument logical indices. -/
def aggFuncDesc (input_schema : DataSchema) (v : ScalarItem) :
    Except BuildErr AggregateFunctionDesc :=
  match v.scalar with
  | .aggregateFunction func_name params args return_type =>
    match mapE (aggArgPosition input_schema) args with
    | .error e => .error e
    | .ok arg_positions =>
      match mapE aggArgIndex args with
      | .error e => .error e
      | .ok arg_indices =>
        .ok { sig := { name := func_name,
                       args := args.map ScalarExpr.data_type,
                       params := params,
                       return_type := return_type },
              output_column := v.index,
              args := arg_positions,
              arg_indices := arg_indices }
  | _ => .error (.internal ("Expected aggregate function"))

/-- Descriptors for all aggregate functions of one Aggregate operator. -/
def aggFuncDescs (input_schema : DataSchema) (funcs : List ScalarItem) :
    Except BuildErr (List AggregateFunctionDesc) :=
  mapE (aggFuncDesc input_schema) funcs

/-- The Final stage's recovery of the before-group-by schema: the physical
input must be a bare partial aggregate or an Exchange directly wrapping
one; anything else is an internal-invariant failure. -/
def beforeGroupBySchema : PhysicalPlan → Except BuildErr DataSchema
  | .aggregatePartial _ pin _ _ _ => .ok pin.output_schema
  | .exchange (.aggregatePartial _ pin _ _ _) _ _ => .ok pin.output_schema
  | other =>
    .error (.internal ("invalid input physical plan: " ++ other.name))

/-- Whether a physical plan matches one of the two shapes the Final
aggregate stage accepts. -/
def finalShapeOk : PhysicalPlan → Bool
  | .aggregatePartial _ _ _ _ _ => true
  | .exchange (.aggregatePartial _ _ _ _ _) _ _ => true
  | _ => false

/-- Whether a physical plan is an Exchange node. -/
def isExchange : PhysicalPlan → Bool
  | .exchange _ _ _ => true
  | _ => false

/-- Stat info derivation (`build_plan_stat_info`): the relational property's
cardinality packaged as `PlanStatsInfo`. -/
def build_plan_stat_info (ctx : Ctx) (s : SExpr) :
    Except BuildErr PlanStatsInfo :=
  match ctx.deriveCardinality s with
  | .error e => .error e
  | .ok c => .ok { estimated_rows := c }

/-- The physical plan builder (`PhysicalPlanBuilder::build`), with the
plan-id counter threaded explicitly and the async recursion bounded by
fuel.  Construction order, including the places where a node's plan id is
drawn before or after its children are built, follows the Rust struct
literal evaluation order. -/
def build (ctx : Ctx) : Nat → SExpr → Nat → Except BuildErr (PhysicalPlan × Nat)
  | 0, _, _ => .error .recursionLimit
  | fuel + 1, s, n =>
    match build_plan_stat_info ctx s with
    | .error e => .error e
    | .ok stat_info =>
      match s with
      | .mk (.scan sc) _ =>
        let m := ctx.metadata
        let has_inner_column := hasInnerColumn m sc.columns
        let name_mapping := scanNameMapping m sc
        let table := (m.table sc.table_index).table
        match push_downs ctx sc table.schema has_inner_column with
        | .error e => .error e
        | .ok pd =>
          match table.read_plan (some pd) with
          | .error e => .error e
          | .ok source =>
            .ok (.tableScan n name_mapping source sc.table_index
              (some stat_info), n + 1)
      | .mk .dummyTableScan _ =>
        match ctx.systemOneTable with
        | .error e => .error e
        | .ok table =>
          match table.read_plan none with
          | .error e => .error e
          | .ok source =>
            .ok (.tableScan n [("dummy", DUMMY_COLUMN_INDEX)] source
              DUMMY_TABLE_INDEX (some { estimated_rows := 1 }), n + 1)
      | .mk (.join j) (c0 :: c1 :: _) =>
        match build ctx fuel c1 n with
        | .error e => .error e
        | .ok (build_side, n1) =>
          match build ctx fuel c0 n1 with
          | .error e => .error e
          | .ok (probe_side, n2) =>
            let build_schema := build_side.output_schema
            let probe_schema := probe_side.output_schema
            let merged_schema := probe_schema ++ build_schema
            match mapE (rebindFold ctx build_schema) j.right_conditions with
            | .error e => .error e
            | .ok build_keys =>
              match mapE (rebindFold ctx probe_schema) j.left_conditions with
              | .error e => .error e
              | .ok probe_keys =>
                match mapE (rebindFold ctx merged_schema) j.non_equi_conditions with
                | .error e => .error e
                | .ok non_equi_conditions =>
                  .ok (.hashJoin n2 build_side probe_side j.join_type
                    build_keys probe_keys non_equi_conditions j.marker_index
                    j.from_correlated_subquery j.contain_runtime_filter
                    (some stat_info), n2 + 1)
      | .mk (.evalScalar items) (c :: _) =>
        match build ctx fuel c n with
        | .error e => .error e
        | .ok (input, n1) =>
          let input_schema := input.output_schema
          let offset := input_schema.length
          let unnest_scalars := unnestOffsets offset items
          match mapE (evalScalarItem ctx input_schema) items with
          | .error e => .error e
          | .ok exprs =>
            let eval_scalar_plan :=
              PhysicalPlan.evalScalar n1 input exprs (some stat_info)
            if unnest_scalars.isEmpty then .ok (eval_scalar_plan, n1 + 1)
            else
              .ok (.unnest (n1 + 1) eval_scalar_plan unnest_scalars
                (some stat_info), n1 + 2)
      | .mk (.filter predicates) (c :: _) =>
        match build ctx fuel c n with
        | .error e => .error e
        | .ok (input, n1) =>
          match mapE (rebindCastFold ctx input.output_schema) predicates with
          | .error e => .error e
          | .ok preds => .ok (.filter n1 input preds (some stat_info), n1 + 1)
      | .mk (.aggregate agg) (c :: _) =>
        match build ctx fuel c n with
        | .error e => .error e
        | .ok (input, n1) =>
          let input_schema := input.output_schema
          let group_items := agg.group_items.map ScalarItem.index
          match agg.mode with
          | .Partial =>
            match aggFuncDescs input_schema agg.aggregate_functions with
            | .error e => .error e
            | .ok agg_funcs =>
              match input with
              | .exchange ex_input kind _keys =>
                let agg_part := PhysicalPlan.aggregatePartial n1 ex_input
                  agg_funcs group_items (some stat_info)
                let group_by_key_index := agg_part.output_schema.length - 1
                match ctx.chooseHashMethodDataType
                    (agg.group_items.map (fun v => v.scalar.data_type)) with
                | .error e => .error e
                | .ok group_by_key_data_type =>
                  .ok (.exchange agg_part kind
                    [.columnRef group_by_key_index group_by_key_data_type
                      ("_group_by_key")], n1 + 1)
              | _ =>
                .ok (.aggregatePartial n1 input agg_funcs group_items
                  (some stat_info), n1 + 1)
          | .Final =>
            match beforeGroupBySchema input with
            | .error e => .error e
            | .ok before_schema =>
              match aggFuncDescs before_schema agg.aggregate_functions with
              | .error e => .error e
              | .ok agg_funcs =>
                match input with
                | .aggregatePartial pid pin paf pgb pst =>
                  .ok (.aggregateFinal n1
                    (.aggregatePartial pid pin paf pgb pst) group_items
                    agg_funcs pin.output_schema (some stat_info) agg.limit,
                    n1 + 1)
                | .exchange (.aggregatePartial pid pin paf pgb pst) k ks =>
                  .ok (.aggregateFinal n1
                    (.exchange (.aggregatePartial pid pin paf pgb pst) k ks)
                    group_items agg_funcs pin.output_schema (some stat_info)
                    agg.limit, n1 + 1)
                | other =>
                  .error (.internal ("invalid input physical plan: " ++
                    other.name))
          | .Initial => .error (.internal ("Invalid aggregate mode: Initial"))
      | .mk (.sort items slimit) (c :: _) =>
        match build ctx fuel c (n + 1) with
        | .error e => .error e
        | .ok (input, n1) =>
          .ok (.sort n input
            (items.map (fun v =>
              { asc := v.asc, nulls_first := v.nulls_first,
                order_by := v.index })) slimit (some stat_info), n1)
      | .mk (.limit l offset) (c :: _) =>
        match build ctx fuel c (n + 1) with
        | .error e => .error e
        | .ok (input, n1) =>
          .ok (.limit n input l offset (some stat_info), n1)
      | .mk (.exchange ex) (c :: _) =>
        match build ctx fuel c n with
        | .error e => .error e
        | .ok (input, n1) =>
          let input_schema := input.output_schema
          match ex with
          | .Random => .ok (.exchange input .Init [], n1)
          | .Hash scalars =>
            match mapE (rebindFold ctx input_schema) scalars with
            | .error e => .error e
            | .ok keys => .ok (.exchange input .Normal keys, n1)
          | .Broadcast => .ok (.exchange input .Expansive [], n1)
          | .Merge => .ok (.exchange input .Merge [], n1)
      | .mk (.unionAll pairs0) (c0 :: rest) =>
        match build ctx fuel c0 n with
        | .error e => .error e
        | .ok (left, n1) =>
          let left_schema := left.output_schema
          let pairs := pairs0.map (fun p => (toString p.1, toString p.2))
          match mapE (fun (p : String × String) =>
              DataSchema.field_with_name left_schema p.1) pairs with
          | .error e => .error e
          | .ok fields =>
            match rest with
            | [] => .error (.internal ("SExpr: invalid children index: 1"))
            | c1 :: _ =>
              match build ctx fuel c1 (n1 + 1) with
              | .error e => .error e
              | .ok (right, n2) =>
                .ok (.unionAll n1 left right pairs fields (some stat_info), n2)
      | .mk (.runtimeFilterSource lf rf) (c0 :: c1 :: _) =>
        match build ctx fuel c0 n with
        | .error e => .error e
        | .ok (left_side, n1) =>
          let left_schema := left_side.output_schema
          match build ctx fuel c1 n1 with
          | .error e => .error e
          | .ok (right_side, n2) =>
            let right_schema := right_side.output_schema
            match mapE (fun (q : (String × ScalarExpr) × (String × ScalarExpr)) =>
                match rebindOnly left_schema q.1.2 with
                | .error e => .error e
                | .ok le =>
                  match rebindOnly right_schema q.2.2 with
                  | .error e => .error e
                  | .ok re => .ok ((q.1.1, le), (q.2.1, re))) (lf.zip rf) with
            | .error e => .error e
            | .ok entries =>
              .ok (.runtimeFilterSource n2 left_side right_side
                ((entries.map Prod.fst).foldl
                  (fun acc p => assocReplace acc p.1 p.2) [])
                ((entries.map Prod.snd).foldl
                  (fun acc p => assocReplace acc p.1 p.2) []), n2 + 1)
      | .mk (.other dbg) _ =>
        .error (.internal ("Unsupported physical plan: " ++ dbg))
      | .mk _ _ => .error (.internal ("SExpr: invalid children index: 0"))

/-- Whether an `Except` result is a success. -/
def exIsOk : Except BuildErr α → Bool
  | .ok _ => true
  | .error _ => false

/-- Whether an `Except` result is any failure at all. -/
def isBuildFailure : Except BuildErr α → Bool
  | .error _ => true
  | .ok _ => false

/-- Whether a failed build surfaced as a returned error value (an
`ErrorCode` carried in the `Result`), as opposed to a Rust panic. -/
def returnedAsError : Except BuildErr α → Bool
  | .error (.internal _) => true
  | .error (.external _) => true
  | _ => false

/-- The plan id a physical node owns, when its struct has one; `Exchange`
has no `plan_id` field. -/
def planIdOf : PhysicalPlan → Option Nat
  | .tableScan pid _ _ _ _ => some pid
  | .hashJoin pid _ _ _ _ _ _ _ _ _ _ => some pid
  | .evalScalar pid _ _ _ => some pid
  | .unnest pid _ _ _ => some pid
  | .filter pid _ _ _ => some pid
  | .aggregatePartial pid _ _ _ _ => some pid
  | .aggregateFinal pid _ _ _ _ _ _ => some pid
  | .sort pid _ _ _ _ => some pid
  | .limit pid _ _ _ _ => some pid
  | .exchange _ _ _ => none
  | .unionAll pid _ _ _ _ _ => some pid
  | .runtimeFilterSource pid _ _ _ _ => some pid

/-- All plan ids owned by the nodes of a physical tree. -/
def planIds : PhysicalPlan → List Nat
  | .tableScan pid _ _ _ _ => [pid]
  | .hashJoin pid b p _ _ _ _ _ _ _ _ => planIds b ++ planIds p ++ [pid]
  | .evalScalar pid input _ _ => planIds input ++ [pid]
  | .unnest pid input _ _ => planIds input ++ [pid]
  | .filter pid input _ _ => planIds input ++ [pid]
  | .aggregatePartial pid input _ _ _ => planIds input ++ [pid]
  | .aggregateFinal pid input _ _ _ _ _ => planIds input ++ [pid]
  | .sort pid input _ _ _ => pid :: planIds input
  | .limit pid input _ _ _ => pid :: planIds input
  | .exchange input _ _ => planIds input
  | .unionAll pid l r _ _ _ => planIds l ++ [pid] ++ planIds r
  | .runtimeFilterSource pid l r _ _ => planIds l ++ planIds r ++ [pid]

/-- Every node that has a `stat_info` field carries `some` estimate;
`Exchange` and `RuntimeFilterSource` have no such field. -/
def statOk : PhysicalPlan → Bool
  | .tableScan _ _ _ _ st => st.isSome
  | .hashJoin _ b p _ _ _ _ _ _ _ st => st.isSome && statOk b && statOk p
  | .evalScalar _ input _ st => st.isSome && statOk input
  | .unnest _ input _ st => st.isSome && statOk input
  | .filter _ input _ st => st.isSome && statOk input
  | .aggregatePartial _ input _ _ st => st.isSome && statOk input
  | .aggregateFinal _ input _ _ _ st _ => st.isSome && statOk input
  | .sort _ input _ _ st => st.isSome && statOk input
  | .limit _ input _ _ st => st.isSome && statOk input
  | .exchange input _ _ => statOk input
  | .unionAll _ l r _ _ st => st.isSome && statOk l && statOk r
  | .runtimeFilterSource _ l r _ _ => statOk l && statOk r

/-- All members of the list lie in the half-open interval `[lo, hi)`. -/
def idsIn (lo hi : Nat) (l : List Nat) : Prop := ∀ i ∈ l, lo ≤ i ∧ i < hi

/- Concrete fixture: a two-table metadata registry and a context whose
abstract collaborators are instantiated with simple total functions. -/

/-- Fixture: base table 0 with two integer columns. -/
def exTable0 : Table :=
  { schema := [{ name := "col1", data_type := DataType.Int32 },
               { name := "col2", data_type := DataType.Int32 }]
    read_plan := fun _ =>
      .ok { schema := [{ name := "1", data_type := DataType.Int32 },
                       { name := "2", data_type := DataType.Int32 }] } }

/-- Fixture: base table 1 with one integer column. -/
def exTable1 : Table :=
  { schema := [{ name := "col3", data_type := DataType.Int32 }]
    read_plan := fun _ =>
      .ok { schema := [{ name := "3", data_type := DataType.Int32 }] } }

/-- Fixture metadata: column i is a flat base-table column named
`col<i>`; table index 1 resolves to `exTable1`, all others to `exTable0`. -/
def exMeta : Metadata :=
  { column := fun i => .baseTableColumn 0 ("col" ++ toString i) DataType.Int32 none i
    table := fun ti =>
      if ti = 1 then { catalog := "default", table := exTable1 }
      else { catalog := "default", table := exTable0 } }

/-- Fixture context: identity folder, identity cast, constant hash-method
choice and cardinality 1. -/
def exCtx : Ctx :=
  { metadata := exMeta
    deriveCardinality := fun _ => .ok 1
    foldIdx := id
    foldName := id
    castIdx := fun e => .ok e
    castName := fun e => .ok e
    chooseHashMethodDataType := fun _ => .ok DataType.String
    systemOneTable := .error (.external ("no catalog")) }

/-- Fixture scan operator over columns 1 and 2 of table 0. -/
def exScanOp : Scan :=
  { table_index := 0
    columns := [1, 2]
    push_down_predicates := none
    prewhere := none
    order_by := none
    limit := none }

/-- Fixture scan tree node. -/
def exScan : SExpr := .mk (.scan exScanOp) []

/-- Fixture scan over column 3 of table 1. -/
def exScanB : SExpr := .mk (.scan
  { table_index := 1
    columns := [3]
    push_down_predicates := none
    prewhere := none
    order_by := none
    limit := none }) []

/-- Fixture physical result of building `exScan` with the counter at k. -/
def exScanPlan (k : Nat) : PhysicalPlan :=
  .tableScan k [("col1", 1), ("col2", 2)]
    { schema := [{ name := "1", data_type := DataType.Int32 },
                 { name := "2", data_type := DataType.Int32 }] } 0
    (some { estimated_rows := 1 })

/-- Fixture physical result of building `exScanB` with the counter at k. -/
def exScanBPlan (k : Nat) : PhysicalPlan :=
  .tableScan k [("col3", 3)]
    { schema := [{ name := "3", data_type := DataType.Int32 }] } 1
    (some { estimated_rows := 1 })

/-- Fixture logical hash exchange over column 1, above `exScan`. -/
def exExchTree : SExpr :=
  .mk (.exchange (.Hash [.boundColumnRef 1 "col1" DataType.Int32])) [exScan]

/-- Fixture partial aggregate: group by column 1, sum of column 2. -/
def exAggOpP : Aggregate :=
  { mode := .Partial
    group_items := [{ scalar := .boundColumnRef 1 "col1" DataType.Int32, index := 1 }]
    aggregate_functions :=
      [{ scalar := .aggregateFunction ("sum") [] [.boundColumnRef 2 "col2" DataType.Int32] DataType.Int32,
         index := 7 }]
    limit := none }

/-- Fixture partial-aggregate tree above the hash exchange. -/
def exAggPTree : SExpr := .mk (.aggregate exAggOpP) [exExchTree]

/-- Fixture aggregate descriptor produced for `exAggOpP` over the scan
schema. -/
def exAggDesc : AggregateFunctionDesc :=
  { sig := { name := "sum", args := [DataType.Int32], params := [],
             return_type := DataType.Int32 }
    output_column := 7
    args := [1]
    arg_indices := [2] }

/-- Fixture physical partial aggregate over the scan. -/
def exAggPPlan : PhysicalPlan :=
  .aggregatePartial 1 (exScanPlan 0) [exAggDesc] [1]
    (some { estimated_rows := 1 })

/-- Fixture final-aggregate tree above the partial one. -/
def exAggFTree : SExpr := .mk (.aggregate
  { mode := .Final
    group_items := [{ scalar := .boundColumnRef 1 "col1" DataType.Int32, index := 1 }]
    aggregate_functions :=
      [{ scalar := .aggregateFunction ("sum") [] [.boundColumnRef 2 "col2" DataType.Int32] DataType.Int32,
         index := 7 }]
    limit := none }) [exAggPTree]

/-- Fixture join: probe side `exScan`, build side `exScanB`, one key pair
and one non-equi condition. -/
def exJoinOp : Join :=
  { join_type := "inner"
    left_conditions := [.boundColumnRef 2 "col2" DataType.Int32]
    right_conditions := [.boundColumnRef 3 "col3" DataType.Int32]
    non_equi_conditions := [.boundColumnRef 1 "col1" DataType.Int32]
    marker_index := none
    from_correlated_subquery := false
    contain_runtime_filter := false }

/-- Fixture join tree: child 0 is the probe side, child 1 the build side. -/
def exJoinTree : SExpr := .mk (.join exJoinOp) [exScan, exScanB]

/-- Fixture EvalScalar items: one unnest-tagged item and one plain item. -/
def exEvalItems : List ScalarItem :=
  [{ scalar := .unnestExpr (.boundColumnRef 1 "col1" DataType.Int32)
       (DataType.Variant), index := 10 },
   { scalar := .boundColumnRef 2 "col2" DataType.Int32, index := 11 }]

/-- Fixture EvalScalar tree above the scan. -/
def exEvalTree : SExpr := .mk (.evalScalar exEvalItems) [exScan]

/-- Fixture EvalScalar tree with no unnest item. -/
def exEvalPlainTree : SExpr := .mk (.evalScalar
  [{ scalar := .boundColumnRef 2 "col2" DataType.Int32, index := 11 }]) [exScan]

/-- Fixture sort tree: one sort item on logical column 2. -/
def exSortTree : SExpr :=
  .mk (.sort [{ index := 2, asc := true, nulls_first := false }] none) [exScan]

/-- Fixture union tree pairing left column 1 with right column 2. -/
def exUnionTree : SExpr := .mk (.unionAll [(1, 2)]) [exScan, exScan]

/-- Fixture filter whose predicate references column 7, absent from the
scan output schema. -/
def exBadFilterTree : SExpr :=
  .mk (.filter [.boundColumnRef 7 "col7" DataType.Int32]) [exScan]

/-- Fixture scan with a prewhere split: required columns 1 and 2, prewhere
column 1, output columns 1 and 2, one predicate. -/
def exPrewhereScanOp : Scan :=
  { table_index := 0
    columns := [1, 2]
    push_down_predicates := none
    prewhere := some { output_columns := [1, 2]
                       prewhere_columns := [1]
                       predicates := [.boundColumnRef 1 "col1" DataType.Int32] }
    order_by := none
    limit := none }

/- Lemma kit: fallible map, field lookup, sortedness of the projection
containers. -/

theorem mapE_ok_length {f : α → Except BuildErr β} :
    ∀ (l : List α) (r : List β), mapE f l = .ok r → r.length = l.length := by
  intro l
  induction l with
  | nil =>
    intro r h
    simp only [mapE, Except.ok.injEq] at h
    subst h
    rfl
  | cons a t ih =>
    intro r h
    simp only [mapE] at h
    split at h
    · exact absurd h (by simp)
    · split at h
      · exact absurd h (by simp)
      · rename_i b hfa bs hbs
        simp only [Except.ok.injEq] at h
        subst h
        simp [ih bs hbs]

theorem mapE_ok_get {f : α → Except BuildErr β} :
    ∀ (l : List α) (r : List β), mapE f l = .ok r →
      ∀ (i : Nat) (a : α), l.get? i = some a →
        ∃ b, f a = .ok b ∧ r.get? i = some b := by
  intro l
  induction l with
  | nil => intro r h i a ha; simp at ha
  | cons x t ih =>
    intro r h i a ha
    cases hfa : f x with
    | error e => simp [mapE, hfa] at h
    | ok b =>
      cases hbs : mapE f t with
      | error e => simp [mapE, hfa, hbs] at h
      | ok bs =>
        simp only [mapE, hfa, hbs, Except.ok.injEq] at h
        subst h
        cases i with
        | zero =>
          simp only [List.get?] at ha
          cases ha
          exact ⟨b, hfa, rfl⟩
        | succ k =>
          simp only [List.get?] at ha ⊢
          exact ih bs hbs k a ha

theorem mapE_ok_mem {f : α → Except BuildErr β} :
    ∀ (l : List α) (r : List β), mapE f l = .ok r →
      ∀ a ∈ l, ∃ b, f a = .ok b := by
  intro l
  induction l with
  | nil => intro r h a ha; simp at ha
  | cons x t ih =>
    intro r h a ha
    cases hfa : f x with
    | error e => simp [mapE, hfa] at h
    | ok b =>
      cases hbs : mapE f t with
      | error e => simp [mapE, hfa, hbs] at h
      | ok bs =>
        rcases List.mem_cons.mp ha with rfl | hmem
        · exact ⟨b, hfa⟩
        · exact ih bs hbs a hmem

theorem mapE_not_ok {f : α → Except BuildErr β} :
    ∀ (l : List α), (∃ a ∈ l, exIsOk (f a) = false) →
      exIsOk (mapE f l) = false := by
  intro l
  induction l with
  | nil => rintro ⟨a, ha, _⟩; simp at ha
  | cons x t ih =>
    rintro ⟨a, ha, hfa⟩
    rcases List.mem_cons.mp ha with rfl | hmem
    · simp only [mapE]
      cases hx : f a with
      | error e => simp [exIsOk]
      | ok b => rw [hx] at hfa; simp [exIsOk] at hfa
    · simp only [mapE]
      cases hx : f x with
      | error e => simp [exIsOk]
      | ok b =>
        have := ih ⟨a, hmem, hfa⟩
        cases hm : mapE f t with
        | error e => simp [exIsOk]
        | ok bs => rw [hm] at this; simp [exIsOk] at this

theorem field_with_name_ok_iff (s : DataSchema) (nm : String) :
    exIsOk (DataSchema.field_with_name s nm) = true ↔ ∃ f ∈ s, f.name = nm := by
  induction s with
  | nil => simp [DataSchema.field_with_name, exIsOk]
  | cons f rest ih =>
    simp only [DataSchema.field_with_name]
    by_cases h : f.name = nm
    · simp [h, exIsOk]
    · have hb : (f.name == nm) = false := by
        simp [h]
      rw [hb]
      simp only [Bool.false_eq_true, if_false, ih, List.mem_cons]
      constructor
      · rintro ⟨g, hg, hgn⟩; exact ⟨g, Or.inr hg, hgn⟩
      · rintro ⟨g, hg | hg, hgn⟩
        · subst hg; exact absurd hgn h
        · exact ⟨g, hg, hgn⟩

/-- C8 (amended): for every Sort node, each produced sort key carries the
sort item's logical column index unchanged — it is not rebound to a
physical field position of the input schema — paired with its ascending
and nulls-first flags, and the optional row limit is carried through
unchanged. -/
theorem claim_C8_sort_keys {ctx : Ctx} {fuel : Nat} {items : List SortItem}
    {slimit : Option Nat} {c : SExpr} {rest : List SExpr} {n : Nat}
    {input : PhysicalPlan} {n1 : Nat} {st : PlanStatsInfo}
    (hst : build_plan_stat_info ctx (.mk (.sort items slimit) (c :: rest)) = .ok st)
    (hc : build ctx fuel c (n + 1) = .ok (input, n1)) :
    build ctx (fuel + 1) (.mk (.sort items slimit) (c :: rest)) n =
      .ok (.sort n input
        (items.map (fun v =>
          { asc := v.asc, nulls_first := v.nulls_first, order_by := v.index }))
        slimit (some st), n1) := by
  simp only [build, hst, hc]

/-- C8 witness: the amended Sort characterization applied to a concrete
one-item sort over a scan. -/
theorem claim_C8_sort_keys_witness :
    build exCtx 2 exSortTree 0 =
      .ok (.sort 0 (exScanPlan 1)
        [{ asc := true, nulls_first := false, order_by := 2 }] none
        (some { estimated_rows := 1 }), 2) :=
  claim_C8_sort_keys rfl rfl

/-- C8 counterexample: in the built plan the sort key is the logical column
index 2, while the physical field position of that column in the input
schema is 1, so the produced key does not reference the physical field
position. -/
theorem claim_C8_counterexample :
    build exCtx 2 exSortTree 0 =
      .ok (.sort 0 (exScanPlan 1)
        [{ asc := true, nulls_first := false, order_by := 2 }] none
        (some { estimated_rows := 1 }), 2) ∧
    DataSchema.index_of (PhysicalPlan.output_schema (exScanPlan 1)) "2" = some 1 ∧
    (2 : Nat) ≠ 1 :=
  ⟨rfl, rfl, by decide⟩

/-- C9 (amended): when an expression is rebound against a target physical
schema during build and the resolved column name of a referenced logical
column index is absent from that schema, the build aborts by panicking
(the `unwrap` on the schema lookup), which is not a returned error value;
no partial physical tree is returned. -/
theorem claim_C9_absent_name_panics {ctx : Ctx} {fuel : Nat}
    {preds : List ScalarExpr} {c : SExpr} {rest : List SExpr} {n : Nat}
    {input : PhysicalPlan} {n1 : Nat} {st : PlanStatsInfo} {i : Nat}
    {nm : String} {dt : DataType}
    (hst : build_plan_stat_info ctx (.mk (.filter preds) (c :: rest)) = .ok st)
    (hc : build ctx fuel c n = .ok (input, n1))
    (hpred : preds = [.boundColumnRef i nm dt])
    (habs : DataSchema.index_of input.output_schema (toString i) = none) :
    build ctx (fuel + 1) (.mk (.filter preds) (c :: rest)) n =
      .error (.panic ("called Result::unwrap on an Err value")) ∧
    returnedAsError (build ctx (fuel + 1) (.mk (.filter preds) (c :: rest)) n)
      = false := by
  subst hpred
  have h1 : build ctx (fuel + 1) (.mk (.filter [.boundColumnRef i nm dt]) (c :: rest)) n =
      .error (.panic ("called Result::unwrap on an Err value")) := by
    simp only [build, hst, hc, mapE, rebindCastFold, rebindOnly,
      ScalarExpr.as_expr_with_col_index, Expr.project_column_ref, habs]
  exact ⟨h1, by rw [h1]; rfl⟩

/-- C9 witness: the amended panic behavior at a concrete filter whose
predicate references the absent column 7. -/
theorem claim_C9_absent_name_panics_witness :
    build exCtx 2 exBadFilterTree 0 =
      .error (.panic ("called Result::unwrap on an Err value")) := by
  have hst : build_plan_stat_info exCtx exBadFilterTree = .ok { estimated_rows := 1 } := rfl
  have hc : build exCtx 1 exScan 0 = .ok (exScanPlan 0, 1) := rfl
  have habs : DataSchema.index_of (PhysicalPlan.output_schema (exScanPlan 0))
      (toString 7) = none := rfl
  exact (claim_C9_absent_name_panics hst hc rfl habs).1

/-- C9 counterexample: at the concrete filter over an absent column the
build does fail, but the failure is a panic, not an error returned to the
caller, contradicting the claim that such a failure is returned as an
error. -/
theorem claim_C9_counterexample :
    isBuildFailure (build exCtx 2 exBadFilterTree 0) = true ∧
    returnedAsError (build exCtx 2 exBadFilterTree 0) = false :=
  ⟨rfl, rfl⟩

theorem beforeGroupBySchema_error {p : PhysicalPlan}
    (h : finalShapeOk p = false) :
    beforeGroupBySchema p =
      .error (.internal ("invalid input physical plan: " ++ p.name)) := by
  cases p
  case aggregatePartial a b d e f => simp [finalShapeOk] at h
  case exchange pin k ks =>
    cases pin
    case aggregatePartial a b d e f => simp [finalShapeOk] at h
    all_goals rfl
  all_goals rfl

theorem rebindFold_ok {ctx : Ctx} {sch : DataSchema} {s : ScalarExpr}
    {v : Expr Nat} (h : rebindFold ctx sch s = .ok v) :
    ∃ e, rebindOnly sch s = .ok e ∧ v = ctx.foldIdx e := by
  cases hr : rebindOnly sch s with
  | error e => simp [rebindFold, hr] at h
  | ok e =>
    simp only [rebindFold, hr, Except.ok.injEq] at h
    exact ⟨e, rfl, h.symm⟩

/-- C2: for every Join node, the build side (child 1) is built first — it
consumes the plan-id counter starting at the entry value, and the probe
side (child 0) continues from where the build side stopped; build keys
are rebound against the build-side schema, probe keys against the
probe-side schema, non-equi conditions against the merged probe-then-build
schema, each list constant-folded element by element; the join's output
schema is the probe side's fields followed by the build side's fields. -/
theorem claim_C2_join {ctx : Ctx} {fuel : Nat} {j : Join} {c0 c1 : SExpr}
    {rest : List SExpr} {n n1 n2 : Nat} {st : PlanStatsInfo}
    {b p : PhysicalPlan} {bk pk ne : List (Expr Nat)}
    (hst : build_plan_stat_info ctx (.mk (.join j) (c0 :: c1 :: rest)) = .ok st)
    (hb : build ctx fuel c1 n = .ok (b, n1))
    (hp : build ctx fuel c0 n1 = .ok (p, n2))
    (hbk : mapE (rebindFold ctx b.output_schema) j.right_conditions = .ok bk)
    (hpk : mapE (rebindFold ctx p.output_schema) j.left_conditions = .ok pk)
    (hne : mapE (rebindFold ctx (p.output_schema ++ b.output_schema))
      j.non_equi_conditions = .ok ne) :
    build ctx (fuel + 1) (.mk (.join j) (c0 :: c1 :: rest)) n =
      .ok (.hashJoin n2 b p j.join_type bk pk ne j.marker_index
        j.from_correlated_subquery j.contain_runtime_filter (some st), n2 + 1) ∧
    PhysicalPlan.output_schema (.hashJoin n2 b p j.join_type bk pk ne
        j.marker_index j.from_correlated_subquery j.contain_runtime_filter
        (some st)) = p.output_schema ++ b.output_schema ∧
    (∀ i s', j.right_conditions.get? i = some s' →
      ∃ e, rebindOnly b.output_schema s' = .ok e ∧
        bk.get? i = some (ctx.foldIdx e)) ∧
    (∀ i s', j.left_conditions.get? i = some s' →
      ∃ e, rebindOnly p.output_schema s' = .ok e ∧
        pk.get? i = some (ctx.foldIdx e)) ∧
    (∀ i s', j.non_equi_conditions.get? i = some s' →
      ∃ e, rebindOnly (p.output_schema ++ b.output_schema) s' = .ok e ∧
        ne.get? i = some (ctx.foldIdx e)) := by
  refine ⟨by simp only [build, hst, hb, hp, hbk, hpk, hne],
    by simp [PhysicalPlan.output_schema], ?_, ?_, ?_⟩
  · intro i s' hs
    obtain ⟨v, hv, hget⟩ := mapE_ok_get j.right_conditions bk hbk i s' hs
    obtain ⟨e, he, rfl⟩ := rebindFold_ok hv
    exact ⟨e, he, hget⟩
  · intro i s' hs
    obtain ⟨v, hv, hget⟩ := mapE_ok_get j.left_conditions pk hpk i s' hs
    obtain ⟨e, he, rfl⟩ := rebindFold_ok hv
    exact ⟨e, he, hget⟩
  · intro i s' hs
    obtain ⟨v, hv, hget⟩ := mapE_ok_get j.non_equi_conditions ne hne i s' hs
    obtain ⟨e, he, rfl⟩ := rebindFold_ok hv
    exact ⟨e, he, hget⟩

/-- C2 witness: the Join characterization at a concrete two-scan join; the
build side (child 1) receives plan id 0, the probe side plan id 1, the
join plan id 2, and the output schema is probe fields then build fields. -/
theorem claim_C2_join_witness :
    build exCtx 2 exJoinTree 0 =
      .ok (.hashJoin 2 (exScanBPlan 0) (exScanPlan 1) "inner"
        [.columnRef 0 DataType.Int32 ("col3")]
        [.columnRef 1 DataType.Int32 ("col2")]
        [.columnRef 0 DataType.Int32 ("col1")] none false false
        (some { estimated_rows := 1 }), 3) ∧
    PhysicalPlan.output_schema (.hashJoin 2 (exScanBPlan 0) (exScanPlan 1)
        "inner" [.columnRef 0 DataType.Int32 ("col3")]
        [.columnRef 1 DataType.Int32 ("col2")]
        [.columnRef 0 DataType.Int32 ("col1")] none false false
        (some { estimated_rows := 1 })) =
      [{ name := "1", data_type := DataType.Int32 },
       { name := "2", data_type := DataType.Int32 },
       { name := "3", data_type := DataType.Int32 }] := by
  have hst : build_plan_stat_info exCtx exJoinTree = .ok { estimated_rows := 1 } := rfl
  have hb : build exCtx 1 exScanB 0 = .ok (exScanBPlan 0, 1) := rfl
  have hp : build exCtx 1 exScan 1 = .ok (exScanPlan 1, 2) := rfl
  have hbk : mapE (rebindFold exCtx (PhysicalPlan.output_schema (exScanBPlan 0)))
      exJoinOp.right_conditions = .ok [.columnRef 0 DataType.Int32 ("col3")] := rfl
  have hpk : mapE (rebindFold exCtx (PhysicalPlan.output_schema (exScanPlan 1)))
      exJoinOp.left_conditions = .ok [.columnRef 1 DataType.Int32 ("col2")] := rfl
  have hne : mapE (rebindFold exCtx (PhysicalPlan.output_schema (exScanPlan 1) ++
      PhysicalPlan.output_schema (exScanBPlan 0)))
      exJoinOp.non_equi_conditions = .ok [.columnRef 0 DataType.Int32 ("col1")] := rfl
  have h := claim_C2_join hst hb hp hbk hpk hne
  exact ⟨h.1, h.2.1⟩

theorem unnestOffsetsAux_mem_of_get {offset : Nat} :
    ∀ (items : List ScalarItem) (k i : Nat) (item : ScalarItem),
      items.get? i = some item → isUnnestScalar item.scalar = true →
      (k + i + offset) ∈ unnestOffsetsAux offset k items := by
  intro items
  induction items with
  | nil => intro k i item h _; simp at h
  | cons x t ih =>
    intro k i item h hu
    cases i with
    | zero =>
      simp only [List.get?, Option.some.injEq] at h
      subst h
      simp [unnestOffsetsAux, hu]
    | succ m =>
      have harith : k + (m + 1) + offset = (k + 1) + m + offset := by omega
      have hmem := ih (k + 1) m item (by simpa using h) hu
      simp only [unnestOffsetsAux]
      by_cases hx : isUnnestScalar x.scalar
      · simp only [hx, if_true, List.mem_cons]
        exact Or.inr (harith ▸ hmem)
      · simp only [hx, Bool.false_eq_true, if_false]
        exact harith ▸ hmem

theorem unnestOffsets_mem_of_get {offset : Nat} {items : List ScalarItem}
    {i : Nat} {item : ScalarItem} (h : items.get? i = some item)
    (hu : isUnnestScalar item.scalar = true) :
    (i + offset) ∈ unnestOffsets offset items := by
  simpa [unnestOffsets] using
    @unnestOffsetsAux_mem_of_get offset items 0 i item h hu

/-- C6: for every EvalScalar node, every item is rebound and folded against
the input schema (an unnest-tagged item contributing its inner argument,
evaluated as a normal scalar, at its list position, paired with its output
column index), the position "input field count + list position" of each
unnest-tagged item is recorded, and the built node is an Unnest wrapping
the EvalScalar exactly when at least one position was recorded, the bare
EvalScalar otherwise. -/
theorem claim_C6_eval_scalar {ctx : Ctx} {fuel : Nat} {items : List ScalarItem}
    {c : SExpr} {rest : List SExpr} {n : Nat} {input : PhysicalPlan}
    {n1 : Nat} {st : PlanStatsInfo} {es : List (Expr Nat × Nat)}
    (hst : build_plan_stat_info ctx (.mk (.evalScalar items) (c :: rest)) = .ok st)
    (hc : build ctx fuel c n = .ok (input, n1))
    (hes : mapE (evalScalarItem ctx input.output_schema) items = .ok es) :
    (unnestOffsets input.output_schema.length items = [] →
      build ctx (fuel + 1) (.mk (.evalScalar items) (c :: rest)) n =
        .ok (.evalScalar n1 input es (some st), n1 + 1)) ∧
    (unnestOffsets input.output_schema.length items ≠ [] →
      build ctx (fuel + 1) (.mk (.evalScalar items) (c :: rest)) n =
        .ok (.unnest (n1 + 1) (.evalScalar n1 input es (some st))
          (unnestOffsets input.output_schema.length items) (some st), n1 + 2)) ∧
    (∀ i item arg rt, items.get? i = some item →
      item.scalar = .unnestExpr arg rt →
      (∃ b, rebindFold ctx input.output_schema arg = .ok b ∧
        es.get? i = some (b, item.index)) ∧
      (i + input.output_schema.length) ∈
        unnestOffsets input.output_schema.length items) := by
  refine ⟨?_, ?_, ?_⟩
  · intro h0
    simp [build, hst, hc, hes, h0]
  · intro h0
    have hne : (unnestOffsets input.output_schema.length items).isEmpty = false := by
      cases hcase : unnestOffsets input.output_schema.length items with
      | nil => exact absurd hcase h0
      | cons a l => rfl
    simp only [build, hst, hc, hes, hne, Bool.false_eq_true, if_false]
  · intro i item arg rt hget hsc
    constructor
    · obtain ⟨v, hv, hes_get⟩ := mapE_ok_get items es hes i item hget
      cases hr : rebindFold ctx input.output_schema arg with
      | error e => simp [evalScalarItem, hsc, hr] at hv
      | ok b =>
        simp only [evalScalarItem, hsc, hr, Except.ok.injEq] at hv
        exact ⟨b, rfl, hv ▸ hes_get⟩
    · exact unnestOffsets_mem_of_get hget (by simp [hsc, isUnnestScalar])

/-- C6 witness: a concrete EvalScalar with one unnest-tagged item and one
plain item: the inner argument of the tagged item is evaluated at list
position 0, position 2 (= 2 input fields + 0) is recorded, and the result
is an Unnest wrapping the EvalScalar. -/
theorem claim_C6_eval_scalar_witness :
    build exCtx 2 exEvalTree 0 =
      .ok (.unnest 2
        (.evalScalar 1 (exScanPlan 0)
          [(.columnRef 0 DataType.Int32 ("col1"), 10),
           (.columnRef 1 DataType.Int32 ("col2"), 11)]
          (some { estimated_rows := 1 }))
        [2] (some { estimated_rows := 1 }), 3) := by
  have hst : build_plan_stat_info exCtx exEvalTree = .ok { estimated_rows := 1 } := rfl
  have hc : build exCtx 1 exScan 0 = .ok (exScanPlan 0, 1) := rfl
  have hes : mapE (evalScalarItem exCtx (PhysicalPlan.output_schema (exScanPlan 0)))
      exEvalItems =
      .ok [(.columnRef 0 DataType.Int32 ("col1"), 10),
           (.columnRef 1 DataType.Int32 ("col2"), 11)] := rfl
  exact (claim_C6_eval_scalar hst hc hes).2.1 (by decide)

/-- C1: for every Aggregate node in Partial mode whose built physical input
is an Exchange, build returns an Exchange of the same redistribution kind
wrapping an AggregatePartial, whose key list is exactly one column
reference positioned at the last field index of the AggregatePartial's
output schema, typed by the hash method chosen from the group-by columns'
declared types; for any other physical input, build returns a bare
AggregatePartial. -/
theorem claim_C1_partial_stage {ctx : Ctx} {fuel : Nat} {agg : Aggregate}
    {c : SExpr} {rest : List SExpr} {n : Nat} {input : PhysicalPlan}
    {n1 : Nat} {st : PlanStatsInfo} {descs : List AggregateFunctionDesc}
    (hst : build_plan_stat_info ctx (.mk (.aggregate agg) (c :: rest)) = .ok st)
    (hmode : agg.mode = .Partial)
    (hc : build ctx fuel c n = .ok (input, n1))
    (hdescs : aggFuncDescs input.output_schema agg.aggregate_functions = .ok descs) :
    (∀ ex_input kind keys gdt, input = .exchange ex_input kind keys →
      ctx.chooseHashMethodDataType
        (agg.group_items.map (fun v => v.scalar.data_type)) = .ok gdt →
      build ctx (fuel + 1) (.mk (.aggregate agg) (c :: rest)) n =
        .ok (.exchange
          (.aggregatePartial n1 ex_input descs
            (agg.group_items.map ScalarItem.index) (some st))
          kind
          [.columnRef
            ((PhysicalPlan.aggregatePartial n1 ex_input descs
              (agg.group_items.map ScalarItem.index) (some st)).output_schema.length - 1)
            gdt ("_group_by_key")], n1 + 1)) ∧
    (isExchange input = false →
      build ctx (fuel + 1) (.mk (.aggregate agg) (c :: rest)) n =
        .ok (.aggregatePartial n1 input descs
          (agg.group_items.map ScalarItem.index) (some st), n1 + 1)) := by
  constructor
  · intro ex_input kind keys gdt hin hg
    subst hin
    simp only [build, hst, hc, hmode, hdescs, hg]
  · intro hx
    cases input
    case exchange pin k ks => simp [isExchange] at hx
    all_goals simp only [build, hst, hc, hmode, hdescs]

/-- C1 witness: a concrete Partial aggregate over a hash Exchange: the
result is an Exchange of the same kind wrapping the AggregatePartial,
keyed by one reference to position 1 (the last of the 2-field partial
schema) with the chosen hash-method type. -/
theorem claim_C1_partial_stage_witness :
    build exCtx 3 exAggPTree 0 =
      .ok (.exchange exAggPPlan FragmentKind.Normal
        [.columnRef 1 DataType.String ("_group_by_key")], 2) := by
  have hst : build_plan_stat_info exCtx exAggPTree = .ok { estimated_rows := 1 } := rfl
  have hc : build exCtx 2 exExchTree 0 =
      .ok (.exchange (exScanPlan 0) FragmentKind.Normal
        [.columnRef 0 DataType.Int32 ("col1")], 1) := rfl
  have hdescs : aggFuncDescs
      (PhysicalPlan.output_schema (.exchange (exScanPlan 0) FragmentKind.Normal
        [.columnRef 0 DataType.Int32 ("col1")]))
      exAggOpP.aggregate_functions = .ok [exAggDesc] := rfl
  have h := (claim_C1_partial_stage hst rfl hc hdescs).1 (exScanPlan 0)
    FragmentKind.Normal [.columnRef 0 DataType.Int32 ("col1")] DataType.String rfl rfl
  exact h

/-- C3: for every Aggregate node in Final mode, build succeeds exactly on a
physical input that is a bare AggregatePartial or an Exchange directly
wrapping one, attaching as before-group-by schema the output schema of
that AggregatePartial's own input; any other input shape yields an
internal error, and Initial mode always yields an internal error. -/
theorem claim_C3_final_stage {ctx : Ctx} {fuel : Nat} {agg : Aggregate}
    {c : SExpr} {rest : List SExpr} {n : Nat} {input : PhysicalPlan}
    {n1 : Nat} {st : PlanStatsInfo}
    (hst : build_plan_stat_info ctx (.mk (.aggregate agg) (c :: rest)) = .ok st)
    (hc : build ctx fuel c n = .ok (input, n1)) :
    (∀ pid pin paf pgb pst descs, agg.mode = .Final →
      input = .aggregatePartial pid pin paf pgb pst →
      aggFuncDescs pin.output_schema agg.aggregate_functions = .ok descs →
      build ctx (fuel + 1) (.mk (.aggregate agg) (c :: rest)) n =
        .ok (.aggregateFinal n1 input (agg.group_items.map ScalarItem.index)
          descs pin.output_schema (some st) agg.limit, n1 + 1)) ∧
    (∀ pid pin paf pgb pst k ks descs, agg.mode = .Final →
      input = .exchange (.aggregatePartial pid pin paf pgb pst) k ks →
      aggFuncDescs pin.output_schema agg.aggregate_functions = .ok descs →
      build ctx (fuel + 1) (.mk (.aggregate agg) (c :: rest)) n =
        .ok (.aggregateFinal n1 input (agg.group_items.map ScalarItem.index)
          descs pin.output_schema (some st) agg.limit, n1 + 1)) ∧
    (agg.mode = .Final → finalShapeOk input = false →
      build ctx (fuel + 1) (.mk (.aggregate agg) (c :: rest)) n =
        .error (.internal ("invalid input physical plan: " ++ input.name))) ∧
    (agg.mode = .Initial →
      build ctx (fuel + 1) (.mk (.aggregate agg) (c :: rest)) n =
        .error (.internal ("Invalid aggregate mode: Initial"))) := by
  refine ⟨?_, ?_, ?_, ?_⟩
  · intro pid pin paf pgb pst descs hmode hin hdescs
    subst hin
    simp only [build, hst, hc, hmode, beforeGroupBySchema, hdescs]
  · intro pid pin paf pgb pst k ks descs hmode hin hdescs
    subst hin
    simp only [build, hst, hc, hmode, beforeGroupBySchema, hdescs]
  · intro hmode hshape
    have hb := beforeGroupBySchema_error hshape
    simp only [build, hst, hc, hmode, hb]
  · intro hmode
    simp only [build, hst, hc, hmode]

/-- C3 witness: the Final characterization at a concrete final aggregate
over an Exchange wrapping an AggregatePartial, with the before-group-by
schema equal to the output schema of the partial's own input (the scan). -/
theorem claim_C3_final_stage_witness :
    build exCtx 4 exAggFTree 0 =
      .ok (.aggregateFinal 2
        (.exchange exAggPPlan FragmentKind.Normal
          [.columnRef 1 DataType.String ("_group_by_key")])
        [1] [exAggDesc]
        [{ name := "1", data_type := DataType.Int32 },
         { name := "2", data_type := DataType.Int32 }]
        (some { estimated_rows := 1 }) none, 3) := by
  have hst : build_plan_stat_info exCtx exAggFTree = .ok { estimated_rows := 1 } := rfl
  have hc : build exCtx 3 exAggPTree 0 =
      .ok (.exchange exAggPPlan FragmentKind.Normal
        [.columnRef 1 DataType.String ("_group_by_key")], 2) := rfl
  have h := (claim_C3_final_stage hst hc).2.1 1 (exScanPlan 0) [exAggDesc] [1]
    (some { estimated_rows := 1 }) FragmentKind.Normal
    [.columnRef 1 DataType.String ("_group_by_key")] [exAggDesc] rfl rfl rfl
  exact h

/-- C7: for every UnionAll node, the output schema has exactly one field
per declared (left-name, right-name) pair, each field obtained by looking
the left name up in the left child's output schema, and (with both
children building successfully) the build fails exactly when some declared
left name is absent from the left child's output schema. -/
theorem claim_C7_union_all {ctx : Ctx} {fuel : Nat} {pairs0 : List (Nat × Nat)}
    {c0 c1 : SExpr} {rest : List SExpr} {n : Nat} {left : PhysicalPlan}
    {n1 : Nat} {st : PlanStatsInfo}
    (hst : build_plan_stat_info ctx (.mk (.unionAll pairs0) (c0 :: c1 :: rest)) = .ok st)
    (hl : build ctx fuel c0 n = .ok (left, n1)) :
    (∀ fields right n2,
      mapE (fun p : String × String =>
          DataSchema.field_with_name left.output_schema p.1)
        (pairs0.map (fun p => (toString p.1, toString p.2))) = .ok fields →
      build ctx fuel c1 (n1 + 1) = .ok (right, n2) →
      build ctx (fuel + 1) (.mk (.unionAll pairs0) (c0 :: c1 :: rest)) n =
        .ok (.unionAll n1 left right
          (pairs0.map (fun p => (toString p.1, toString p.2))) fields
          (some st), n2) ∧
      fields.length = pairs0.length ∧
      (∀ i q, (pairs0.map (fun p => (toString p.1, toString p.2))).get? i = some q →
        ∃ f, DataSchema.field_with_name left.output_schema q.1 = .ok f ∧
          fields.get? i = some f)) ∧
    ((∃ q ∈ pairs0.map (fun p => (toString p.1, toString p.2)),
        exIsOk (DataSchema.field_with_name left.output_schema q.1) = false) →
      exIsOk (build ctx (fuel + 1) (.mk (.unionAll pairs0) (c0 :: c1 :: rest)) n)
        = false) ∧
    (exIsOk (build ctx (fuel + 1) (.mk (.unionAll pairs0) (c0 :: c1 :: rest)) n)
        = true →
      ∀ q ∈ pairs0.map (fun p => (toString p.1, toString p.2)),
        ∃ f ∈ left.output_schema, f.name = q.1) := by
  refine ⟨?_, ?_, ?_⟩
  · intro fields right n2 hfields hr
    refine ⟨by simp only [build, hst, hl, hfields, hr], ?_, ?_⟩
    · have := mapE_ok_length _ _ hfields
      simpa using this
    · intro i q hq
      exact mapE_ok_get _ _ hfields i q hq
  · rintro ⟨q, hq, hbad⟩
    have hnotok := mapE_not_ok (f := fun p : String × String =>
        DataSchema.field_with_name left.output_schema p.1)
      (pairs0.map (fun p => (toString p.1, toString p.2))) ⟨q, hq, hbad⟩
    cases hm : mapE (fun p : String × String =>
        DataSchema.field_with_name left.output_schema p.1)
      (pairs0.map (fun p => (toString p.1, toString p.2))) with
    | ok fields => rw [hm] at hnotok; simp [exIsOk] at hnotok
    | error e => simp only [build, hst, hl, hm, exIsOk]
  · intro hok q hq
    simp only [build, hst, hl] at hok
    cases hm : mapE (fun p : String × String =>
        DataSchema.field_with_name left.output_schema p.1)
      (pairs0.map (fun p => (toString p.1, toString p.2))) with
    | error e => rw [hm] at hok; simp [exIsOk] at hok
    | ok fields =>
      obtain ⟨f, hf⟩ := mapE_ok_mem _ _ hm q hq
      have : exIsOk (DataSchema.field_with_name left.output_schema q.1) = true := by
        rw [hf]; rfl
      exact (field_with_name_ok_iff left.output_schema q.1).mp this

/-- C7 witness: a concrete UnionAll pairing left column 1 with right column
2: one output field per pair, taken from the left schema by name. -/
theorem claim_C7_union_all_witness :
    build exCtx 2 exUnionTree 0 =
      .ok (.unionAll 1 (exScanPlan 0) (exScanPlan 2) [("1", "2")]
        [{ name := "1", data_type := DataType.Int32 }]
        (some { estimated_rows := 1 }), 3) ∧
    ([{ name := "1", data_type := DataType.Int32 }] : List DataField).length =
      [(1, 2)].length := by
  have hst : build_plan_stat_info exCtx exUnionTree = .ok { estimated_rows := 1 } := rfl
  have hl : build exCtx 1 exScan 0 = .ok (exScanPlan 0, 1) := rfl
  have h := (claim_C7_union_all hst hl).1
    ([{ name := "1", data_type := DataType.Int32 }] : List DataField)
    (exScanPlan 2) 3 rfl rfl
  exact ⟨h.1, h.2.1⟩

theorem btreeInsertNat_keys (x : Nat × List Nat) :
    ∀ (l : List (Nat × List Nat)) (k : Nat),
      (k ∈ (btreeInsertNat x l).map Prod.fst ↔
        k = x.1 ∨ k ∈ l.map Prod.fst) := by
  intro l
  induction l with
  | nil => intro k; simp [btreeInsertNat]
  | cons y ys ih =>
    intro k
    simp only [btreeInsertNat]
    by_cases h1 : x.1 < y.1
    · rw [if_pos h1]
      simp only [List.map_cons, List.mem_cons]
    · by_cases h2 : x.1 = y.1
      · rw [if_neg h1, if_pos h2]
        simp only [List.map_cons, List.mem_cons]
        constructor
        · rintro (h | h)
          · exact Or.inl h
          · exact Or.inr (Or.inr h)
        · rintro (h | h | h)
          · exact Or.inl h
          · exact Or.inl (h.trans h2.symm)
          · exact Or.inr h
      · rw [if_neg h1, if_neg h2]
        simp only [List.map_cons, List.mem_cons, ih]
        tauto

theorem btreeInsertNat_sortedKeys (x : Nat × List Nat) :
    ∀ (l : List (Nat × List Nat)),
      List.Sorted (· < ·) (l.map Prod.fst) →
      List.Sorted (· < ·) ((btreeInsertNat x l).map Prod.fst) := by
  intro l
  induction l with
  | nil => intro _; simp [btreeInsertNat]
  | cons y ys ih =>
    intro hs
    rw [List.map_cons, List.sorted_cons] at hs
    obtain ⟨hy, hys⟩ := hs
    simp only [btreeInsertNat]
    by_cases h1 : x.1 < y.1
    · rw [if_pos h1]
      simp only [List.map_cons, List.sorted_cons]
      refine ⟨?_, ?_, hys⟩
      · intro b hb
        rcases List.mem_cons.mp hb with rfl | hb2
        · exact h1
        · exact h1.trans (hy b hb2)
      · exact hy
    · by_cases h2 : x.1 = y.1
      · rw [if_neg h1, if_pos h2]
        simp only [List.map_cons, List.sorted_cons]
        exact ⟨fun b hb => h2 ▸ hy b hb, hys⟩
      · rw [if_neg h1, if_neg h2]
        simp only [List.map_cons, List.sorted_cons]
        refine ⟨?_, ih hys⟩
        intro b hb
        rcases (btreeInsertNat_keys x ys b).mp hb with rfl | hb2
        · omega
        · exact hy b hb2

theorem btreeInsertNat_length_of_fresh (x : Nat × List Nat) :
    ∀ (l : List (Nat × List Nat)), x.1 ∉ l.map Prod.fst →
      (btreeInsertNat x l).length = l.length + 1 := by
  intro l
  induction l with
  | nil => intro _; rfl
  | cons y ys ih =>
    intro hx
    simp only [List.map_cons, List.mem_cons] at hx
    push_neg at hx
    simp only [btreeInsertNat]
    by_cases h1 : x.1 < y.1
    · rw [if_pos h1]; rfl
    · by_cases h2 : x.1 = y.1
      · exact absurd h2 hx.1
      · rw [if_neg h1, if_neg h2]
        simp only [List.length_cons]
        rw [ih hx.2]

theorem btreeInsertNat_mem_self (x : Nat × List Nat) :
    ∀ (l : List (Nat × List Nat)), x ∈ btreeInsertNat x l := by
  intro l
  induction l with
  | nil => simp [btreeInsertNat]
  | cons y ys ih =>
    simp only [btreeInsertNat]
    by_cases h1 : x.1 < y.1
    · rw [if_pos h1]; exact List.mem_cons_self x _
    · by_cases h2 : x.1 = y.1
      · rw [if_neg h1, if_pos h2]; exact List.mem_cons_self x _
      · rw [if_neg h1, if_neg h2]
        exact List.mem_cons_of_mem y ih

theorem btreeInsertNat_mem_of_ne (x y : Nat × List Nat) :
    ∀ (l : List (Nat × List Nat)), y ∈ l → y.1 ≠ x.1 →
      y ∈ btreeInsertNat x l := by
  intro l
  induction l with
  | nil => intro h _; simp at h
  | cons z zs ih =>
    intro hy hne
    simp only [btreeInsertNat]
    rcases List.mem_cons.mp hy with rfl | hy2
    · by_cases h1 : x.1 < y.1
      · rw [if_pos h1]
        exact List.mem_cons_of_mem x (List.mem_cons_self y _)
      · by_cases h2 : x.1 = y.1
        · exact absurd h2.symm hne
        · rw [if_neg h1, if_neg h2]
          exact List.mem_cons_self y _
    · by_cases h1 : x.1 < z.1
      · rw [if_pos h1]
        exact List.mem_cons_of_mem x (List.mem_cons_of_mem z hy2)
      · by_cases h2 : x.1 = z.1
        · rw [if_neg h1, if_pos h2]
          exact List.mem_cons_of_mem x hy2
        · rw [if_neg h1, if_neg h2]
          exact List.mem_cons_of_mem z (ih hy2 hne)

theorem collectFold_sortedKeys :
    ∀ (l : List (Nat × List Nat)) (acc : List (Nat × List Nat)),
      List.Sorted (· < ·) (acc.map Prod.fst) →
      List.Sorted (· < ·)
        ((l.foldl (fun acc x => btreeInsertNat x acc) acc).map Prod.fst) := by
  intro l
  induction l with
  | nil => intro acc h; simpa using h
  | cons a t ih =>
    intro acc h
    exact ih _ (btreeInsertNat_sortedKeys a acc h)

theorem collectFold_keys :
    ∀ (l : List (Nat × List Nat)) (acc : List (Nat × List Nat)) (k : Nat),
      (k ∈ ((l.foldl (fun acc x => btreeInsertNat x acc) acc).map Prod.fst) ↔
        k ∈ acc.map Prod.fst ∨ k ∈ l.map Prod.fst) := by
  intro l
  induction l with
  | nil => intro acc k; simp
  | cons a t ih =>
    intro acc k
    simp only [List.foldl_cons, List.map_cons, List.mem_cons]
    rw [ih (btreeInsertNat a acc) k, btreeInsertNat_keys a acc k]
    tauto

theorem collectFold_length :
    ∀ (l : List (Nat × List Nat)) (acc : List (Nat × List Nat)),
      (l.map Prod.fst).Nodup →
      (∀ k ∈ l.map Prod.fst, k ∉ acc.map Prod.fst) →
      (l.foldl (fun acc x => btreeInsertNat x acc) acc).length =
        acc.length + l.length := by
  intro l
  induction l with
  | nil => intro acc _ _; rfl
  | cons a t ih =>
    intro acc hnd hdis
    simp only [List.map_cons, List.nodup_cons] at hnd
    have hfresh : a.1 ∉ acc.map Prod.fst :=
      hdis a.1 (by simp)
    have hstep := btreeInsertNat_length_of_fresh a acc hfresh
    have hdis2 : ∀ k ∈ t.map Prod.fst, k ∉ (btreeInsertNat a acc).map Prod.fst := by
      intro k hk hmem
      rcases (btreeInsertNat_keys a acc k).mp hmem with rfl | hmem2
      · exact hnd.1 hk
      · exact hdis k (by simp [hk]) hmem2
    simp only [List.foldl_cons]
    rw [ih (btreeInsertNat a acc) hnd.2 hdis2, hstep]
    simp only [List.length_cons]
    omega

theorem collectFold_preserve :
    ∀ (l : List (Nat × List Nat)) (acc : List (Nat × List Nat))
      (y : Nat × List Nat), y ∈ acc → y.1 ∉ l.map Prod.fst →
      y ∈ l.foldl (fun acc x => btreeInsertNat x acc) acc := by
  intro l
  induction l with
  | nil => intro acc y hy _; simpa using hy
  | cons a t ih =>
    intro acc y hy hfresh
    simp only [List.map_cons, List.mem_cons] at hfresh
    push_neg at hfresh
    simp only [List.foldl_cons]
    exact ih _ y (btreeInsertNat_mem_of_ne a y acc hy hfresh.1) hfresh.2

theorem collectFold_mem :
    ∀ (l : List (Nat × List Nat)) (acc : List (Nat × List Nat))
      (y : Nat × List Nat), (l.map Prod.fst).Nodup → y ∈ l →
      y ∈ l.foldl (fun acc x => btreeInsertNat x acc) acc := by
  intro l
  induction l with
  | nil => intro acc y _ hy; simp at hy
  | cons a t ih =>
    intro acc y hnd hy
    simp only [List.map_cons, List.nodup_cons] at hnd
    simp only [List.foldl_cons]
    rcases List.mem_cons.mp hy with rfl | hy2
    · exact collectFold_preserve t (btreeInsertNat y acc) y
        (btreeInsertNat_mem_self y acc) hnd.1
    · exact ih _ y hnd.2 hy2

/-- C4: for every requested column set, the projection descriptor is the
flat form exactly when no requested column has path indices, listing one
physical position per requested column in ascending order; with any
path-indexed column present, the nested form is used for all requested
columns — an ascending (by logical column index) mapping to position
paths — and the two forms are never mixed. -/
theorem claim_C4_projection {m : Metadata} {schema : TableSchema}
    {cols : List Nat} {ps : List Nat} {prs : List (Nat × List Nat)} :
    (mapE (flatLookup m schema) cols = .ok ps →
      hasInnerColumn m cols = false →
      build_projection m schema cols (hasInnerColumn m cols) =
        .ok (.columns (sortNat ps)) ∧
      List.Sorted (· ≤ ·) (sortNat ps) ∧
      (sortNat ps).length = cols.length ∧
      (∀ q, q ∈ sortNat ps ↔ q ∈ ps)) ∧
    (mapE (nestedLookup m schema) cols = .ok prs →
      hasInnerColumn m cols = true →
      (prs.map Prod.fst).Nodup →
      build_projection m schema cols (hasInnerColumn m cols) =
        .ok (.innerColumns (collectBTree prs)) ∧
      List.Sorted (· < ·) ((collectBTree prs).map Prod.fst) ∧
      (collectBTree prs).length = cols.length ∧
      (∀ pr ∈ prs, pr ∈ collectBTree prs)) ∧
    (∀ proj, build_projection m schema cols (hasInnerColumn m cols) = .ok proj →
      ((∃ idxs, proj = .columns idxs) ↔ hasInnerColumn m cols = false)) := by
  refine ⟨?_, ?_, ?_⟩
  · intro hflat hfalse
    rw [hfalse]
    refine ⟨by simp [build_projection, hflat], ?_, ?_, ?_⟩
    · exact List.sorted_insertionSort _ ps
    · rw [sortNat, List.length_insertionSort]
      exact mapE_ok_length cols ps hflat
    · intro q
      exact List.mem_insertionSort _
  · intro hnest htrue hnd
    rw [htrue]
    refine ⟨by simp [build_projection, hnest], ?_, ?_, ?_⟩
    · exact collectFold_sortedKeys prs [] (by simp)
    · rw [collectBTree, collectFold_length prs [] hnd (by simp)]
      simpa using mapE_ok_length cols prs hnest
    · intro pr hpr
      exact collectFold_mem prs [] pr hnd hpr
  · intro proj hproj
    by_cases hic : hasInnerColumn m cols
    · rw [hic] at hproj ⊢
      simp only [build_projection, Bool.not_true] at hproj
      cases hm : mapE (nestedLookup m schema) cols with
      | error e => rw [hm] at hproj; exact absurd hproj (by simp)
      | ok pairs =>
        rw [hm] at hproj
        simp only [Bool.false_eq_true, if_false, Except.ok.injEq] at hproj
        subst hproj
        simp
    · rw [Bool.not_eq_true] at hic
      rw [hic] at hproj ⊢
      simp only [build_projection, Bool.not_false] at hproj
      cases hm : mapE (flatLookup m schema) cols with
      | error e => rw [hm] at hproj; exact absurd hproj (by simp)
      | ok idxs =>
        rw [hm] at hproj
        simp only [if_true, Except.ok.injEq] at hproj
        subst hproj
        simp

/-- C4 witness: the flat branch at the concrete registry, over requested
columns listed in descending physical order: the projection is the flat
form with the two positions in ascending order. -/
theorem claim_C4_projection_witness :
    build_projection exMeta exTable0.schema [2, 1] (hasInnerColumn exMeta [2, 1]) =
      .ok (.columns (sortNat [1, 0])) ∧
    List.Sorted (· ≤ ·) (sortNat [1, 0]) ∧
    (sortNat [1, 0]).length = ([2, 1] : List Nat).length ∧
    (∀ q, q ∈ sortNat [1, 0] ↔ q ∈ [1, 0]) :=
  (@claim_C4_projection exMeta exTable0.schema [2, 1] [1, 0] []).1 rfl rfl

theorem mem_remainColumnsOf {sc : Scan} {pw : Prewhere} {x : Nat} :
    x ∈ remainColumnsOf sc pw ↔ x ∈ sc.columns ∧ x ∉ pw.prewhere_columns := by
  simp only [remainColumnsOf, List.mem_filter, Bool.not_eq_true',
    ← Bool.not_eq_true]
  constructor
  · rintro ⟨h1, h2⟩
    exact ⟨h1, fun hx => h2 (List.elem_iff.mpr hx)⟩
  · rintro ⟨h1, h2⟩
    refine ⟨h1, fun hx => h2 (List.elem_iff.mp hx)⟩

/-- C5: for every Scan with a prewhere split, the remaining-columns
projection is built over the set difference (required columns minus
prewhere columns), so the prewhere column set and the remaining column
set are disjoint and their union covers the required column set; all
prewhere predicates are reduced with AND, converted by name, cast to a
non-null boolean and folded into the single prewhere filter. -/
theorem claim_C5_prewhere {ctx : Ctx} {sc : Scan} {table_schema : TableSchema}
    {hic : Bool} {pw : Prewhere} {p0 : ScalarExpr} {prest : List ScalarExpr}
    {projAll projO preO remO : Projection} {fOpt : Option (Expr String)}
    {pe ce : Expr String} {obOpt : Option (List (Expr String × Bool × Bool))}
    (hpw : sc.prewhere = some pw)
    (hpreds : pw.predicates = p0 :: prest)
    (hprojAll : build_projection ctx.metadata table_schema sc.columns hic = .ok projAll)
    (hf : pushDownFilter ctx sc = .ok fOpt)
    (hpo : build_projection ctx.metadata table_schema pw.output_columns hic = .ok projO)
    (hpp : build_projection ctx.metadata table_schema pw.prewhere_columns hic = .ok preO)
    (hpr : build_projection ctx.metadata table_schema (remainColumnsOf sc pw) hic = .ok remO)
    (hconv : ScalarExpr.as_expr_with_col_name
      (prest.foldl (fun l r => ScalarExpr.andExpr l r DataType.Boolean) p0) = .ok pe)
    (hcast : ctx.castName pe = .ok ce)
    (hob : scanOrderBy ctx sc = .ok obOpt) :
    push_downs ctx sc table_schema hic =
      .ok { projection := some projAll, filter := fOpt,
            prewhere := some { output_columns := projO, prewhere_columns := preO,
                               remain_columns := remO,
                               filter := ctx.foldName ce },
            limit := sc.limit, order_by := obOpt.getD [] } ∧
    (∀ x ∈ pw.prewhere_columns, x ∉ remainColumnsOf sc pw) ∧
    (∀ x ∈ sc.columns, x ∈ pw.prewhere_columns ∨ x ∈ remainColumnsOf sc pw) := by
  refine ⟨?_, ?_, ?_⟩
  · simp only [push_downs, hprojAll, hf, prewhereInfoOf, hpw, hpo, hpp, hpr,
      hpreds, hconv, hcast, hob]
  · intro x hx hxr
    exact (mem_remainColumnsOf.mp hxr).2 hx
  · intro x hx
    by_cases hmem : x ∈ pw.prewhere_columns
    · exact Or.inl hmem
    · exact Or.inr (mem_remainColumnsOf.mpr ⟨hx, hmem⟩)

/-- C5 witness: the prewhere characterization at a concrete scan with
required columns 1 and 2 and prewhere column 1: the remaining set is
the difference (column 2 alone), the three projections are built, and
the single predicate is cast and folded into the prewhere filter. -/
theorem claim_C5_prewhere_witness :
    push_downs exCtx exPrewhereScanOp exTable0.schema false =
      .ok { projection := some (.columns [0, 1]), filter := none,
            prewhere := some { output_columns := .columns [0, 1],
                               prewhere_columns := .columns [0],
                               remain_columns := .columns [1],
                               filter := .columnRef ("col1") DataType.Int32 ("col1") },
            limit := none, order_by := [] } ∧
    (∀ x ∈ [1], x ∉ remainColumnsOf exPrewhereScanOp
      { output_columns := [1, 2], prewhere_columns := [1],
        predicates := [.boundColumnRef 1 "col1" DataType.Int32] }) := by
  have hpw : exPrewhereScanOp.prewhere =
      some { output_columns := [1, 2], prewhere_columns := [1],
             predicates := [.boundColumnRef 1 "col1" DataType.Int32] } := rfl
  have hpreds :
      ({ output_columns := [1, 2], prewhere_columns := [1],
         predicates := [.boundColumnRef 1 "col1" DataType.Int32] } : Prewhere).predicates =
      (ScalarExpr.boundColumnRef 1 "col1" DataType.Int32) :: [] := rfl
  have hprojAll : build_projection exCtx.metadata exTable0.schema
      exPrewhereScanOp.columns false = .ok (.columns [0, 1]) := rfl
  have hf : pushDownFilter exCtx exPrewhereScanOp = .ok none := rfl
  have hpo : build_projection exCtx.metadata exTable0.schema
      ([1, 2] : List Nat) false = .ok (.columns [0, 1]) := rfl
  have hpp : build_projection exCtx.metadata exTable0.schema
      ([1] : List Nat) false = .ok (.columns [0]) := rfl
  have hpr : build_projection exCtx.metadata exTable0.schema
      (remainColumnsOf exPrewhereScanOp
        { output_columns := [1, 2], prewhere_columns := [1],
          predicates := [.boundColumnRef 1 "col1" DataType.Int32] }) false =
      .ok (.columns [1]) := rfl
  have hconv : ScalarExpr.as_expr_with_col_name
      (([] : List ScalarExpr).foldl (fun l r => ScalarExpr.andExpr l r DataType.Boolean)
        (.boundColumnRef 1 "col1" DataType.Int32)) =
      .ok (.columnRef ("col1") DataType.Int32 ("col1")) := rfl
  have hcast : exCtx.castName (.columnRef ("col1") DataType.Int32 ("col1")) =
      .ok (.columnRef ("col1") DataType.Int32 ("col1")) := rfl
  have hob : scanOrderBy exCtx exPrewhereScanOp = .ok none := rfl
  have h := claim_C5_prewhere hpw hpreds hprojAll hf hpo hpp hpr hconv hcast hob
  exact ⟨h.1, fun x hx => h.2.1 x hx⟩

theorem idsIn_mono (lo2 hi2 : Nat) {lo hi : Nat} {l : List Nat}
    (h : idsIn lo hi l) (h1 : lo2 ≤ lo) (h2 : hi ≤ hi2) : idsIn lo2 hi2 l := by
  intro i hi'
  have := h i hi'
  omega

theorem idsIn_append {lo hi : Nat} {l1 l2 : List Nat} (h1 : idsIn lo hi l1)
    (h2 : idsIn lo hi l2) : idsIn lo hi (l1 ++ l2) := by
  intro i hi'
  rcases List.mem_append.mp hi' with h | h
  · exact h1 i h
  · exact h2 i h

theorem idsIn_single (lo hi i : Nat) (h1 : lo ≤ i) (h2 : i < hi) :
    idsIn lo hi [i] := by
  intro j hj
  simp only [List.mem_singleton] at hj
  subst hj
  exact ⟨h1, h2⟩

theorem idsIn_cons (lo hi i : Nat) {l : List Nat} (h1 : lo ≤ i) (h2 : i < hi)
    (h : idsIn lo hi l) : idsIn lo hi (i :: l) := by
  intro j hj
  rcases List.mem_cons.mp hj with rfl | hj2
  · exact ⟨h1, h2⟩
  · exact h j hj2

theorem nodup_append_ranges (a b c : Nat) {l1 l2 : List Nat}
    (h1 : idsIn a b l1) (h2 : idsIn b c l2) (d1 : l1.Nodup) (d2 : l2.Nodup) :
    (l1 ++ l2).Nodup := by
  refine d1.append d2 ?_
  intro x hx1 hx2
  have q1 := (h1 x hx1).2
  have q2 := (h2 x hx2).1
  omega

theorem nodup_cons_below (i lo hi : Nat) {l : List Nat}
    (hlt : i < lo) (h : idsIn lo hi l) (d : l.Nodup) : (i :: l).Nodup := by
  refine List.nodup_cons.mpr ⟨?_, d⟩
  intro hmem
  have := (h i hmem).1
  omega

/-- C10 counterexample: build of a concrete tree whose root is an Exchange
node succeeds, and the produced Exchange owns no plan id at all, so not
every physical node produced by build owns a plan id. -/
theorem claim_C10_counterexample :
    build exCtx 2 exExchTree 0 =
      .ok (.exchange (exScanPlan 0) FragmentKind.Normal
        [.columnRef 0 DataType.Int32 ("col1")], 1) ∧
    planIdOf (.exchange (exScanPlan 0) FragmentKind.Normal
      [.columnRef 0 DataType.Int32 ("col1")]) = none :=
  ⟨rfl, rfl⟩

/-- C10 (amended): over one build pass, every plan id is drawn from the
single monotonically increasing counter: a successful build from counter n
ends at counter n2 with n ≤ n2, every owned plan id lies in [n, n2), and
the ids are pairwise distinct (process-unique within the pass); every node
with a stat-info field (all except Exchange and RuntimeFilterSource, which
have none) carries an attached cardinality estimate. -/
theorem claim_C10_plan_ids :
    ∀ (fuel : Nat) (s : SExpr) (ctx : Ctx) (n : Nat) (p : PhysicalPlan) (n2 : Nat),
      build ctx fuel s n = .ok (p, n2) →
      n ≤ n2 ∧ idsIn n n2 (planIds p) ∧ (planIds p).Nodup ∧ statOk p = true := by
  intro fuel
  induction fuel with
  | zero => intro s ctx n p n2 h; simp [build] at h
  | succ fuel ih =>
    intro s ctx n p n2 h
    obtain ⟨plan, children⟩ := s
    cases hst : build_plan_stat_info ctx (SExpr.mk plan children) with
    | error e => simp [build, hst] at h
    | ok st =>
      cases plan with
      | scan sc =>
        simp only [build, hst] at h
        split at h
        · exact absurd h (by simp)
        · split at h
          · exact absurd h (by simp)
          · simp only [Except.ok.injEq, Prod.mk.injEq] at h
            obtain ⟨rfl, rfl⟩ := h
            refine ⟨by omega, ?_, by simp [planIds], by simp [statOk]⟩
            intro i hi
            simp only [planIds, List.mem_singleton] at hi
            subst hi
            omega
      | dummyTableScan =>
        simp only [build, hst] at h
        split at h
        · exact absurd h (by simp)
        · split at h
          · exact absurd h (by simp)
          · simp only [Except.ok.injEq, Prod.mk.injEq] at h
            obtain ⟨rfl, rfl⟩ := h
            refine ⟨by omega, ?_, by simp [planIds], by simp [statOk]⟩
            intro i hi
            simp only [planIds, List.mem_singleton] at hi
            subst hi
            omega
      | join j =>
        cases children with
        | nil => simp [build, hst] at h
        | cons c0 rest0 =>
          cases rest0 with
          | nil => simp [build, hst] at h
          | cons c1 rest1 =>
            simp only [build, hst] at h
            cases hb : build ctx fuel c1 n with
            | error e => simp [hb] at h
            | ok bb =>
              obtain ⟨b, n1⟩ := bb
              simp only [hb] at h
              cases hpr : build ctx fuel c0 n1 with
              | error e => simp [hpr] at h
              | ok pp =>
                obtain ⟨pr, m2⟩ := pp
                simp only [hpr] at h
                cases hbk : mapE (rebindFold ctx b.output_schema) j.right_conditions with
                | error e => simp [hbk] at h
                | ok bk =>
                  simp only [hbk] at h
                  cases hpk : mapE (rebindFold ctx pr.output_schema) j.left_conditions with
                  | error e => simp [hpk] at h
                  | ok pk =>
                    simp only [hpk] at h
                    cases hne : mapE (rebindFold ctx (pr.output_schema ++ b.output_schema)) j.non_equi_conditions with
                    | error e => simp [hne] at h
                    | ok ne2 =>
                      simp only [hne] at h
                      simp only [Except.ok.injEq, Prod.mk.injEq] at h
                      obtain ⟨rfl, rfl⟩ := h
                      obtain ⟨le1, rng1, nd1, st1⟩ := ih c1 ctx n b n1 hb
                      obtain ⟨le2, rng2, nd2, st2⟩ := ih c0 ctx n1 pr m2 hpr
                      refine ⟨by omega, ?_, ?_, ?_⟩
                      · simp only [planIds]
                        refine idsIn_append (idsIn_append ?_ ?_) ?_
                        · exact idsIn_mono n (m2 + 1) rng1 (by omega) (by omega)
                        · exact idsIn_mono n (m2 + 1) rng2 (by omega) (by omega)
                        · exact idsIn_single n (m2 + 1) m2 (by omega) (by omega)
                      · simp only [planIds]
                        exact nodup_append_ranges n m2 (m2 + 1)
                          (idsIn_append (idsIn_mono n m2 rng1 (by omega) (by omega))
                            (idsIn_mono n m2 rng2 (by omega) (by omega)))
                          (idsIn_single m2 (m2 + 1) m2 (by omega) (by omega))
                          (nodup_append_ranges n n1 m2 rng1 rng2 nd1 nd2)
                          (by simp)
                      · simp [statOk, st1, st2]
      | evalScalar items =>
        cases children with
        | nil => simp [build, hst] at h
        | cons c rest0 =>
          simp only [build, hst] at h
          cases hc : build ctx fuel c n with
          | error e => simp [hc] at h
          | ok bb =>
            obtain ⟨input, n1⟩ := bb
            simp only [hc] at h
            cases hes : mapE (evalScalarItem ctx input.output_schema) items with
            | error e => simp [hes] at h
            | ok es =>
              simp only [hes] at h
              obtain ⟨le1, rng1, nd1, st1⟩ := ih c ctx n input n1 hc
              split at h
              · simp only [Except.ok.injEq, Prod.mk.injEq] at h
                obtain ⟨rfl, rfl⟩ := h
                refine ⟨by omega, ?_, ?_, ?_⟩
                · simp only [planIds]
                  exact idsIn_append (idsIn_mono n (n1 + 1) rng1 (by omega) (by omega))
                    (idsIn_single n (n1 + 1) n1 (by omega) (by omega))
                · simp only [planIds]
                  exact nodup_append_ranges n n1 (n1 + 1) rng1
                    (idsIn_single n1 (n1 + 1) n1 (by omega) (by omega)) nd1 (by simp)
                · simp [statOk, st1]
              · simp only [Except.ok.injEq, Prod.mk.injEq] at h
                obtain ⟨rfl, rfl⟩ := h
                refine ⟨by omega, ?_, ?_, ?_⟩
                · simp only [planIds]
                  refine idsIn_append (idsIn_append ?_ ?_) ?_
                  · exact idsIn_mono n (n1 + 2) rng1 (by omega) (by omega)
                  · exact idsIn_single n (n1 + 2) n1 (by omega) (by omega)
                  · exact idsIn_single n (n1 + 2) (n1 + 1) (by omega) (by omega)
                · simp only [planIds]
                  exact nodup_append_ranges n (n1 + 1) (n1 + 2)
                    (idsIn_append (idsIn_mono n (n1 + 1) rng1 (by omega) (by omega))
                      (idsIn_single n (n1 + 1) n1 (by omega) (by omega)))
                    (idsIn_single (n1 + 1) (n1 + 2) (n1 + 1) (by omega) (by omega))
                    (nodup_append_ranges n n1 (n1 + 1) rng1
                      (idsIn_single n1 (n1 + 1) n1 (by omega) (by omega)) nd1 (by simp))
                    (by simp)
                · simp [statOk, st1]
      | filter preds =>
        cases children with
        | nil => simp [build, hst] at h
        | cons c rest0 =>
          simp only [build, hst] at h
          cases hc : build ctx fuel c n with
          | error e => simp [hc] at h
          | ok bb =>
            obtain ⟨input, n1⟩ := bb
            simp only [hc] at h
            cases hps : mapE (rebindCastFold ctx input.output_schema) preds with
            | error e => simp [hps] at h
            | ok ps =>
              simp only [hps] at h
              simp only [Except.ok.injEq, Prod.mk.injEq] at h
              obtain ⟨rfl, rfl⟩ := h
              obtain ⟨le1, rng1, nd1, st1⟩ := ih c ctx n input n1 hc
              refine ⟨by omega, ?_, ?_, ?_⟩
              · simp only [planIds]
                exact idsIn_append (idsIn_mono n (n1 + 1) rng1 (by omega) (by omega))
                  (idsIn_single n (n1 + 1) n1 (by omega) (by omega))
              · simp only [planIds]
                exact nodup_append_ranges n n1 (n1 + 1) rng1
                  (idsIn_single n1 (n1 + 1) n1 (by omega) (by omega)) nd1 (by simp)
              · simp [statOk, st1]
      | aggregate agg =>
        cases children with
        | nil => simp [build, hst] at h
        | cons c rest0 =>
          simp only [build, hst] at h
          cases hc : build ctx fuel c n with
          | error e => simp [hc] at h
          | ok bb =>
            obtain ⟨input, n1⟩ := bb
            simp only [hc] at h
            obtain ⟨le1, rng1, nd1, st1⟩ := ih c ctx n input n1 hc
            cases hmode : agg.mode with
            | Partial =>
              simp only [hmode] at h
              cases hds : aggFuncDescs input.output_schema agg.aggregate_functions with
              | error e => simp [hds] at h
              | ok descs =>
                simp only [hds] at h
                split at h
                · rename_i ex_input kind keys
                  cases hg : ctx.chooseHashMethodDataType
                      (agg.group_items.map (fun v => v.scalar.data_type)) with
                  | error e => simp [hg] at h
                  | ok gdt =>
                    simp only [hg] at h
                    simp only [Except.ok.injEq, Prod.mk.injEq] at h
                    obtain ⟨rfl, rfl⟩ := h
                    simp only [planIds, statOk] at rng1 nd1 st1 ⊢
                    refine ⟨by omega, ?_, ?_, ?_⟩
                    · exact idsIn_append (idsIn_mono n (n1 + 1) rng1 (by omega) (by omega))
                        (idsIn_single n (n1 + 1) n1 (by omega) (by omega))
                    · exact nodup_append_ranges n n1 (n1 + 1) rng1
                        (idsIn_single n1 (n1 + 1) n1 (by omega) (by omega)) nd1 (by simp)
                    · simp [st1]
                · simp only [Except.ok.injEq, Prod.mk.injEq] at h
                  obtain ⟨rfl, rfl⟩ := h
                  refine ⟨by omega, ?_, ?_, ?_⟩
                  · simp only [planIds]
                    exact idsIn_append (idsIn_mono n (n1 + 1) rng1 (by omega) (by omega))
                      (idsIn_single n (n1 + 1) n1 (by omega) (by omega))
                  · simp only [planIds]
                    exact nodup_append_ranges n n1 (n1 + 1) rng1
                      (idsIn_single n1 (n1 + 1) n1 (by omega) (by omega)) nd1 (by simp)
                  · simp [statOk, st1]
            | Final =>
              simp only [hmode] at h
              cases hbs : beforeGroupBySchema input with
              | error e => simp [hbs] at h
              | ok bs =>
                simp only [hbs] at h
                cases hds : aggFuncDescs bs agg.aggregate_functions with
                | error e => simp [hds] at h
                | ok descs =>
                  simp only [hds] at h
                  split at h
                  · simp only [Except.ok.injEq, Prod.mk.injEq] at h
                    obtain ⟨rfl, rfl⟩ := h
                    refine ⟨by omega, ?_, ?_, ?_⟩
                    · simp only [planIds]
                      exact idsIn_append (idsIn_mono n (n1 + 1) rng1 (by omega) (by omega))
                        (idsIn_single n (n1 + 1) n1 (by omega) (by omega))
                    · simp only [planIds]
                      exact nodup_append_ranges n n1 (n1 + 1) rng1
                        (idsIn_single n1 (n1 + 1) n1 (by omega) (by omega)) nd1 (by simp)
                    · simp [statOk] at st1 ⊢
                      exact st1
                  · simp only [Except.ok.injEq, Prod.mk.injEq] at h
                    obtain ⟨rfl, rfl⟩ := h
                    refine ⟨by omega, ?_, ?_, ?_⟩
                    · simp only [planIds]
                      exact idsIn_append (idsIn_mono n (n1 + 1) rng1 (by omega) (by omega))
                        (idsIn_single n (n1 + 1) n1 (by omega) (by omega))
                    · simp only [planIds]
                      exact nodup_append_ranges n n1 (n1 + 1) rng1
                        (idsIn_single n1 (n1 + 1) n1 (by omega) (by omega)) nd1 (by simp)
                    · simp [statOk] at st1 ⊢
                      exact st1
                  · simp at h
            | Initial => simp [hmode] at h
      | sort items slimit =>
        cases children with
        | nil => simp [build, hst] at h
        | cons c rest0 =>
          simp only [build, hst] at h
          cases hc : build ctx fuel c (n + 1) with
          | error e => simp [hc] at h
          | ok bb =>
            obtain ⟨input, n1⟩ := bb
            simp only [hc] at h
            simp only [Except.ok.injEq, Prod.mk.injEq] at h
            obtain ⟨rfl, rfl⟩ := h
            obtain ⟨le1, rng1, nd1, st1⟩ := ih c ctx (n + 1) input n1 hc
            refine ⟨by omega, ?_, ?_, ?_⟩
            · simp only [planIds]
              exact idsIn_cons n n1 n (by omega) (by omega)
                (idsIn_mono n n1 rng1 (by omega) (by omega))
            · simp only [planIds]
              exact nodup_cons_below n (n + 1) n1 (by omega) rng1 nd1
            · simp [statOk, st1]
      | limit l offset =>
        cases children with
        | nil => simp [build, hst] at h
        | cons c rest0 =>
          simp only [build, hst] at h
          cases hc : build ctx fuel c (n + 1) with
          | error e => simp [hc] at h
          | ok bb =>
            obtain ⟨input, n1⟩ := bb
            simp only [hc] at h
            simp only [Except.ok.injEq, Prod.mk.injEq] at h
            obtain ⟨rfl, rfl⟩ := h
            obtain ⟨le1, rng1, nd1, st1⟩ := ih c ctx (n + 1) input n1 hc
            refine ⟨by omega, ?_, ?_, ?_⟩
            · simp only [planIds]
              exact idsIn_cons n n1 n (by omega) (by omega)
                (idsIn_mono n n1 rng1 (by omega) (by omega))
            · simp only [planIds]
              exact nodup_cons_below n (n + 1) n1 (by omega) rng1 nd1
            · simp [statOk, st1]
      | exchange ex =>
        cases children with
        | nil => simp [build, hst] at h
        | cons c rest0 =>
          simp only [build, hst] at h
          cases hc : build ctx fuel c n with
          | error e => simp [hc] at h
          | ok bb =>
            obtain ⟨input, n1⟩ := bb
            simp only [hc] at h
            obtain ⟨le1, rng1, nd1, st1⟩ := ih c ctx n input n1 hc
            cases ex with
            | Random =>
              simp only [Except.ok.injEq, Prod.mk.injEq] at h
              obtain ⟨rfl, rfl⟩ := h
              exact ⟨by omega, by simpa [planIds] using rng1,
                by simpa [planIds] using nd1, by simpa [statOk] using st1⟩
            | Hash scalars =>
              cases hk : mapE (rebindFold ctx input.output_schema) scalars with
              | error e => simp [hk] at h
              | ok keys =>
                simp only [hk] at h
                simp only [Except.ok.injEq, Prod.mk.injEq] at h
                obtain ⟨rfl, rfl⟩ := h
                exact ⟨by omega, by simpa [planIds] using rng1,
                  by simpa [planIds] using nd1, by simpa [statOk] using st1⟩
            | Broadcast =>
              simp only [Except.ok.injEq, Prod.mk.injEq] at h
              obtain ⟨rfl, rfl⟩ := h
              exact ⟨by omega, by simpa [planIds] using rng1,
                by simpa [planIds] using nd1, by simpa [statOk] using st1⟩
            | Merge =>
              simp only [Except.ok.injEq, Prod.mk.injEq] at h
              obtain ⟨rfl, rfl⟩ := h
              exact ⟨by omega, by simpa [planIds] using rng1,
                by simpa [planIds] using nd1, by simpa [statOk] using st1⟩
      | unionAll pairs0 =>
        cases children with
        | nil => simp [build, hst] at h
        | cons c0 rest0 =>
          simp only [build, hst] at h
          cases hl : build ctx fuel c0 n with
          | error e => simp [hl] at h
          | ok bb =>
            obtain ⟨left, n1⟩ := bb
            simp only [hl] at h
            cases hflds : mapE (fun p : String × String =>
                DataSchema.field_with_name left.output_schema p.1)
                (pairs0.map (fun p => (toString p.1, toString p.2))) with
            | error e => simp [hflds] at h
            | ok fields =>
              simp only [hflds] at h
              cases rest0 with
              | nil => simp at h
              | cons c1 rest1 =>
                cases hr : build ctx fuel c1 (n1 + 1) with
                | error e => simp [hr] at h
                | ok rr =>
                  obtain ⟨right, m2⟩ := rr
                  simp only [hr] at h
                  simp only [Except.ok.injEq, Prod.mk.injEq] at h
                  obtain ⟨rfl, rfl⟩ := h
                  obtain ⟨le1, rng1, nd1, st1⟩ := ih c0 ctx n left n1 hl
                  obtain ⟨le2, rng2, nd2, st2⟩ := ih c1 ctx (n1 + 1) right m2 hr
                  refine ⟨by omega, ?_, ?_, ?_⟩
                  · simp only [planIds]
                    refine idsIn_append (idsIn_append ?_ ?_) ?_
                    · exact idsIn_mono n m2 rng1 (by omega) (by omega)
                    · exact idsIn_single n m2 n1 (by omega) (by omega)
                    · exact idsIn_mono n m2 rng2 (by omega) (by omega)
                  · simp only [planIds]
                    exact nodup_append_ranges n (n1 + 1) m2
                      (idsIn_append (idsIn_mono n (n1 + 1) rng1 (by omega) (by omega))
                        (idsIn_single n (n1 + 1) n1 (by omega) (by omega)))
                      (idsIn_mono (n1 + 1) m2 rng2 (by omega) (by omega))
                      (nodup_append_ranges n n1 (n1 + 1) rng1
                        (idsIn_single n1 (n1 + 1) n1 (by omega) (by omega)) nd1 (by simp))
                      nd2
                  · simp [statOk, st1, st2]
      | runtimeFilterSource lf rf =>
        cases children with
        | nil => simp [build, hst] at h
        | cons c0 rest0 =>
          cases rest0 with
          | nil => simp [build, hst] at h
          | cons c1 rest1 =>
            simp only [build, hst] at h
            cases hl : build ctx fuel c0 n with
            | error e => simp [hl] at h
            | ok bb =>
              obtain ⟨left, n1⟩ := bb
              simp only [hl] at h
              cases hr : build ctx fuel c1 n1 with
              | error e => simp [hr] at h
              | ok rr =>
                obtain ⟨right, m2⟩ := rr
                simp only [hr] at h
                cases hentries : mapE (fun q : (String × ScalarExpr) × (String × ScalarExpr) =>
                    match rebindOnly left.output_schema q.1.2 with
                    | .error e => .error e
                    | .ok le =>
                      match rebindOnly right.output_schema q.2.2 with
                      | .error e => .error e
                      | .ok re => .ok ((q.1.1, le), (q.2.1, re))) (lf.zip rf) with
                | error e => simp [hentries] at h
                | ok entries =>
                  simp only [hentries] at h
                  simp only [Except.ok.injEq, Prod.mk.injEq] at h
                  obtain ⟨rfl, rfl⟩ := h
                  obtain ⟨le1, rng1, nd1, st1⟩ := ih c0 ctx n left n1 hl
                  obtain ⟨le2, rng2, nd2, st2⟩ := ih c1 ctx n1 right m2 hr
                  refine ⟨by omega, ?_, ?_, ?_⟩
                  · simp only [planIds]
                    refine idsIn_append (idsIn_append ?_ ?_) ?_
                    · exact idsIn_mono n (m2 + 1) rng1 (by omega) (by omega)
                    · exact idsIn_mono n (m2 + 1) rng2 (by omega) (by omega)
                    · exact idsIn_single n (m2 + 1) m2 (by omega) (by omega)
                  · simp only [planIds]
                    exact nodup_append_ranges n m2 (m2 + 1)
                      (idsIn_append (idsIn_mono n m2 rng1 (by omega) (by omega))
                        (idsIn_mono n m2 rng2 (by omega) (by omega)))
                      (idsIn_single m2 (m2 + 1) m2 (by omega) (by omega))
                      (nodup_append_ranges n n1 m2 rng1 rng2 nd1 nd2)
                      (by simp)
                  · simp [statOk, st1, st2]
      | other dbg => simp [build, hst] at h

/-- C10 witness: the amended plan-id property applied to a concrete build
of a final aggregate over an exchange over a scan: the owned ids are
0 (scan), 1 (partial aggregate), 2 (final aggregate) — the Exchange owns
none — all within [0, 3) and pairwise distinct, and every stat-carrying
node has an estimate. -/
theorem claim_C10_plan_ids_witness :
    0 ≤ 3 ∧
    idsIn 0 3 (planIds (.aggregateFinal 2
      (.exchange exAggPPlan FragmentKind.Normal
        [.columnRef 1 DataType.String ("_group_by_key")])
      [1] [exAggDesc]
      [{ name := "1", data_type := DataType.Int32 },
       { name := "2", data_type := DataType.Int32 }]
      (some { estimated_rows := 1 }) none)) ∧
    (planIds (PhysicalPlan.aggregateFinal 2
      (.exchange exAggPPlan FragmentKind.Normal
        [.columnRef 1 DataType.String ("_group_by_key")])
      [1] [exAggDesc]
      [{ name := "1", data_type := DataType.Int32 },
       { name := "2", data_type := DataType.Int32 }]
      (some { estimated_rows := 1 }) none)).Nodup ∧
    statOk (.aggregateFinal 2
      (.exchange exAggPPlan FragmentKind.Normal
        [.columnRef 1 DataType.String ("_group_by_key")])
      [1] [exAggDesc]
      [{ name := "1", data_type := DataType.Int32 },
       { name := "2", data_type := DataType.Int32 }]
      (some { estimated_rows := 1 }) none) = true :=
  claim_C10_plan_ids 4 exAggFTree exCtx 0
    (.aggregateFinal 2
      (.exchange exAggPPlan FragmentKind.Normal
        [.columnRef 1 DataType.String ("_group_by_key")])
      [1] [exAggDesc]
      [{ name := "1", data_type := DataType.Int32 },
       { name := "2", data_type := DataType.Int32 }]
      (some { estimated_rows := 1 }) none) 3 rfl
